import Mathlib

/-!
Verification of the JSON flattening and insights tabulation logic of the
fetch_organic_data_meta repository.

The repository's reusable core is `flatten_json` in json-to-csv-converter.py,
the insights extraction loops in json-to-csv-converter.py and
social-media-analytics.py, and the pivot step those scripts delegate to an
external tabular library.  This file embeds that code shallowly: Python dicts
become ordered association lists, JSON values become the inductive `JSON`
below, Python exceptions become `Except`, and each Python function is
translated clause by clause.  JSON numbers are modelled as integers; no
claim exercises fractional values.
-/

/-- A JSON-like value as handled by the scripts: the result of `json.load`.
Mappings keep their insertion order, as Python dicts do. -/
inductive JSON where
  | null : JSON
  | bool (b : Bool) : JSON
  | num (n : Int) : JSON
  | str (s : String) : JSON
  | arr (xs : List JSON) : JSON
  | obj (kvs : List (String × JSON)) : JSON

mutual

/-- Structural equality of JSON values, written as a mutual recursion over the
two nested list positions so that it is structurally recursive. -/
def JSON.beq : JSON → JSON → Bool
  | .null, .null => true
  | .bool a, .bool b => a == b
  | .num a, .num b => a == b
  | .str a, .str b => a == b
  | .arr a, .arr b => beqElems a b
  | .obj a, .obj b => beqFields a b
  | _, _ => false

/-- Position-by-position equality of two element lists. -/
def beqElems : List JSON → List JSON → Bool
  | [], [] => true
  | x :: xs, y :: ys => JSON.beq x y && beqElems xs ys
  | _, _ => false

/-- Position-by-position equality of two field lists. -/
def beqFields : List (String × JSON) → List (String × JSON) → Bool
  | [], [] => true
  | (k, v) :: xs, (l, w) :: ys => k == l && JSON.beq v w && beqFields xs ys
  | _, _ => false

end

mutual

theorem JSON.beq_iff : ∀ a b : JSON, JSON.beq a b = true ↔ a = b
  | .null, b => by cases b <;> simp [JSON.beq]
  | .bool x, b => by cases b <;> simp [JSON.beq]
  | .num x, b => by cases b <;> simp [JSON.beq]
  | .str x, b => by cases b <;> simp [JSON.beq]
  | .arr xs, b => by
    cases b <;> simp [JSON.beq]
    exact beqElems_iff xs _
  | .obj kvs, b => by
    cases b <;> simp [JSON.beq]
    exact beqFields_iff kvs _

theorem beqElems_iff : ∀ a b : List JSON, beqElems a b = true ↔ a = b
  | [], b => by cases b <;> simp [beqElems]
  | x :: xs, b => by
    cases b with
    | nil => simp [beqElems]
    | cons y ys => simp [beqElems, JSON.beq_iff x y, beqElems_iff xs ys]

theorem beqFields_iff : ∀ a b : List (String × JSON), beqFields a b = true ↔ a = b
  | [], b => by cases b <;> simp [beqFields]
  | (k, v) :: xs, b => by
    cases b with
    | nil => simp [beqFields]
    | cons y ys =>
      obtain ⟨l, w⟩ := y
      simp [beqFields, JSON.beq_iff v w, beqFields_iff xs ys, and_assoc]

end

instance : DecidableEq JSON := fun a b =>
  decidable_of_iff (JSON.beq a b = true) (JSON.beq_iff a b)

/-- `true` on mappings only; `isinstance(v, dict)` in the source. -/
def isObjB : JSON → Bool
  | .obj _ => true
  | _ => false

/-- `true` on non-container values: null, booleans, numbers and strings. -/
def isScalarB : JSON → Bool
  | .null => true
  | .bool _ => true
  | .num _ => true
  | .str _ => true
  | _ => false

mutual

/-- Python's `str`/`repr` of a JSON-like value, used by `flatten_json` when it
stores a non-record list as text.  Lists render as `[e1, e2]`, dicts as
braced `'k': v` pairs, `None`/`True`/`False` as their Python names, and
integers in decimal.  Strings render between plain single quotes; Python's
escaping of quote characters inside them is elided, which no claim
exercises. -/
def pyRepr : JSON → String
  | .null => "None"
  | .bool true => "True"
  | .bool false => "False"
  | .num n => Int.repr n
  | .str s => "'" ++ s ++ "'"
  | .arr xs => "[" ++ pyReprElems xs ++ "]"
  | .obj kvs => "\x7b" ++ pyReprFields kvs ++ "\x7d"

/-- The comma-separated element renderings inside `str` of a list. -/
def pyReprElems : List JSON → String
  | [] => ""
  | [x] => pyRepr x
  | x :: y :: rest => pyRepr x ++ ", " ++ pyReprElems (y :: rest)

/-- The comma-separated `'key': value` renderings inside `str` of a dict. -/
def pyReprFields : List (String × JSON) → String
  | [] => ""
  | [(k, v)] => "'" ++ k ++ "': " ++ pyRepr v
  | (k, v) :: y :: rest => "'" ++ k ++ "': " ++ pyRepr v ++ ", " ++ pyReprFields (y :: rest)

end

/-- The last value bound to key `k` in `rest`, defaulting to `v`: what
`dict(items)[k]` holds once every later assignment to `k` has run. -/
def lastVal (k : String) (v : JSON) : List (String × JSON) → JSON
  | [] => v
  | (l, w) :: rest => if l = k then lastVal k w rest else lastVal k v rest

/-- Worker for `pyDict`: emits each key at its first occurrence, carrying the
set of keys already emitted. -/
def pyDictGo (seen : List String) : List (String × JSON) → List (String × JSON)
  | [] => []
  | (k, v) :: rest =>
    if seen.contains k then pyDictGo seen rest
    else (k, lastVal k v rest) :: pyDictGo (k :: seen) rest

/-- Python's `dict(items)`: keys appear in order of first insertion, and each
key carries the last value assigned to it. -/
def pyDict (items : List (String × JSON)) : List (String × JSON) :=
  pyDictGo [] items

/-- The only exception `flatten_json` can raise: the `AttributeError` from
calling `.items()` on a value that is not a dict. -/
inductive FlattenErr where
  | attributeError : FlattenErr
deriving DecidableEq

mutual

/-- `flatten_json` from json-to-csv-converter.py lines 6-23.  Calling it on a
non-dict raises: the body immediately asks for `nested_json.items()`. -/
def flatten_json : JSON → String → String → Except FlattenErr (List (String × JSON))
  | .obj kvs, parent_key, sep => (flattenPairs kvs parent_key sep).map pyDict
  | _, _, _ => .error .attributeError

/-- The `for k, v in nested_json.items()` loop: each entry contributes its
items, concatenated in insertion order; the first exception propagates. -/
def flattenPairs : List (String × JSON) → String → String → Except FlattenErr (List (String × JSON))
  | [], _, _ => .ok []
  | (k, v) :: rest, parent_key, sep =>
    let new_key := if parent_key = "" then k else parent_key ++ sep ++ k
    match flattenEntry v new_key sep with
    | .error e => .error e
    | .ok h =>
      match flattenPairs rest parent_key sep with
      | .error e => .error e
      | .ok t => .ok (h ++ t)

/-- The loop body's dispatch on one value `v` under composite key `new_key`:
dicts recurse, lists whose first element is a dict expand element by element,
any other list is stored as its `str`, and scalars are stored unchanged. -/
def flattenEntry : JSON → String → String → Except FlattenErr (List (String × JSON))
  | .obj kvs, new_key, sep => (flattenPairs kvs new_key sep).map pyDict
  | .arr [], new_key, _ => .ok [(new_key, .str (pyRepr (.arr [])))]
  | .arr (x :: rest), new_key, sep =>
    match x with
    | .obj _ => flattenItems (x :: rest) new_key sep 0
    | _ => .ok [(new_key, .str (pyRepr (.arr (x :: rest))))]
  | v, new_key, _ => .ok [(new_key, v)]

/-- The `for i, item in enumerate(v)` loop over a list classified as a list of
records: element `i` is flattened under `new_key + sep + str(i)`. -/
def flattenItems : List JSON → String → String → Nat → Except FlattenErr (List (String × JSON))
  | [], _, _, _ => .ok []
  | x :: rest, new_key, sep, i =>
    match flatten_json x (new_key ++ sep ++ Nat.repr i) sep with
    | .error e => .error e
    | .ok h =>
      match flattenItems rest new_key sep (i + 1) with
      | .error e => .error e
      | .ok t => .ok (h ++ t)

end

deriving instance DecidableEq for Except

example : flatten_json (.obj [("a", .obj [("b", .num 1), ("c", .num 2)])]) "" "_"
    = .ok [("a_b", .num 1), ("a_c", .num 2)] := by decide

example : flatten_json (.obj [("a", .arr [.obj [("x", .num 1)], .obj [("x", .num 2)]])]) "" "_"
    = .ok [("a_0_x", .num 1), ("a_1_x", .num 2)] := by decide

example : flatten_json (.obj [("a", .arr [.num 1, .num 2, .num 3])]) "" "_"
    = .ok [("a", .str "[1, 2, 3]")] := by decide

example : flatten_json (.obj [("a", .arr [.obj [("x", .num 1)], .num 2])]) "" "_"
    = .error .attributeError := by decide

example : flatten_json (.num 5) "k" "_" = .error .attributeError := by decide

example : flatten_json (.obj [("a_b", .num 1), ("a", .obj [("b", .num 2)])]) "" "_"
    = .ok [("a_b", .num 2)] := by decide

/-! ## Insights extraction (convert_instagram_insights and _save_insights_data)

The two scripts walk `data["data"]`, and for each element emit one row per
entry of its `"values"` list.  They differ only in the label of the timestamp
column: json-to-csv-converter.py writes `end_time`, the analytics scripts
write `date`. -/

/-- Exceptions raised by the extraction code: `TypeError` from using `in`,
`[...]` or `for` on a value of the wrong kind, `KeyError` from a missing
dict key. -/
inductive PyErr where
  | typeError : PyErr
  | keyError : PyErr
deriving DecidableEq

/-- Lookup in a parsed dict.  `json.load` gives each key one binding, so the
first match is the binding. -/
def lookupKey (key : String) : List (String × JSON) → Option JSON
  | [] => none
  | (k, v) :: rest => if k = key then some v else lookupKey key rest

/-- Python's `key in value` for a string key: key membership for dicts,
element membership for lists, substring test for strings, `TypeError`
otherwise. -/
def pyContains (key : String) : JSON → Except PyErr Bool
  | .obj kvs => .ok (lookupKey key kvs).isSome
  | .arr xs => .ok (xs.contains (.str key))
  | .str s => .ok (decide (key.data <:+: s.data))
  | _ => .error .typeError

/-- Python's `value[key]` for a string key: dict lookup raising `KeyError`
when absent, `TypeError` on any non-dict. -/
def pyGetItem (key : String) : JSON → Except PyErr JSON
  | .obj kvs =>
    match lookupKey key kvs with
    | some v => .ok v
    | none => .error .keyError
  | _ => .error .typeError

/-- Python's `for x in value`: lists yield their elements, dicts their keys,
strings their characters; other values raise `TypeError`. -/
def pyIter : JSON → Except PyErr (List JSON)
  | .arr xs => .ok xs
  | .obj kvs => .ok (kvs.map (fun kv => .str kv.1))
  | .str s => .ok (s.data.map (fun ch => .str (String.singleton ch)))
  | _ => .error .typeError

/-- The converter's inner `for value in metric['values']` loop: one row dict
per entry, carrying the `metric_name` read before the loop, evaluating
`value['end_time']` before `value['value']` as the dict literal does.
`tsCol` is the timestamp column label, `end_time` in the converter. -/
def valuesRows (tsCol : String) (metric_name : JSON) :
    List JSON → Except PyErr (List (List (String × JSON)))
  | [] => .ok []
  | v :: rest =>
    match pyGetItem "end_time" v with
    | .error e => .error e
    | .ok t =>
      match pyGetItem "value" v with
      | .error e => .error e
      | .ok w =>
        match valuesRows tsCol metric_name rest with
        | .error e => .error e
        | .ok rs => .ok ([("metric", metric_name), (tsCol, t), ("value", w)] :: rs)

/-- The converter's outer `for metric in data['data']` loop,
json-to-csv-converter.py lines 63-71: it assigns
`metric_name = metric['name']` before iterating `metric['values']`,
appending the rows of every element. -/
def metricsRows (tsCol : String) : List JSON → Except PyErr (List (List (String × JSON)))
  | [] => .ok []
  | m :: rest =>
    match pyGetItem "name" m with
    | .error e => .error e
    | .ok metric_name =>
      match pyGetItem "values" m with
      | .error e => .error e
      | .ok vs =>
        match pyIter vs with
        | .error e => .error e
        | .ok vlist =>
          match valuesRows tsCol metric_name vlist with
          | .error e => .error e
          | .ok rows =>
            match metricsRows tsCol rest with
            | .error e => .error e
            | .ok rest' => .ok (rows ++ rest')

/-- `convert_instagram_insights` from json-to-csv-converter.py lines 57-71,
up to the long-format rows it collects: if `'data' not in data` it prints and
returns having emitted nothing, otherwise it loops over `data['data']`.
The timestamp column is labelled `end_time`. -/
def convert_instagram_insights (data : JSON) : Except PyErr (List (List (String × JSON))) :=
  match pyContains "data" data with
  | .error e => .error e
  | .ok present =>
    if present then
      match pyGetItem "data" data with
      | .error e => .error e
      | .ok d =>
        match pyIter d with
        | .error e => .error e
        | .ok ms => metricsRows "end_time" ms
    else .ok []

/-- The analytics scripts' inner `for value in metric['values']` loop: the
row dict literal reads `metric['name']` inside the loop body, once per value
entry, then `value['end_time']`, then `value['value']`.  An element without
`name` therefore raises only once a value entry is reached. -/
def saveValuesRows (m : JSON) : List JSON → Except PyErr (List (List (String × JSON)))
  | [] => .ok []
  | v :: rest =>
    match pyGetItem "name" m with
    | .error e => .error e
    | .ok metric_name =>
      match pyGetItem "end_time" v with
      | .error e => .error e
      | .ok t =>
        match pyGetItem "value" v with
        | .error e => .error e
        | .ok w =>
          match saveValuesRows m rest with
          | .error e => .error e
          | .ok rs => .ok ([("metric", metric_name), ("date", t), ("value", w)] :: rs)

/-- The analytics scripts' outer `for metric in insights_data['data']` loop:
unlike the converter, nothing is read from `metric` before the inner loop
starts, so only `metric['values']` is consulted up front. -/
def saveMetricsRows : List JSON → Except PyErr (List (List (String × JSON)))
  | [] => .ok []
  | m :: rest =>
    match pyGetItem "values" m with
    | .error e => .error e
    | .ok vs =>
      match pyIter vs with
      | .error e => .error e
      | .ok vlist =>
        match saveValuesRows m vlist with
        | .error e => .error e
        | .ok rows =>
          match saveMetricsRows rest with
          | .error e => .error e
          | .ok rest' => .ok (rows ++ rest')

/-- `_save_insights_data` from social-media-analytics.py lines 84-93, up to
the long-format rows it collects.  Its caller `save_data` only invokes it when
`'data' in insights_data` already holds, so the body indexes directly; the
timestamp column is labelled `date`, and `metric['name']` is read inside the
inner loop body, not before it. -/
def save_insights_data (insights_data : JSON) : Except PyErr (List (List (String × JSON))) :=
  match pyGetItem "data" insights_data with
  | .error e => .error e
  | .ok d =>
    match pyIter d with
    | .error e => .error e
    | .ok ms => saveMetricsRows ms

/-- Worker for `firstSeen`, carrying the values already emitted. -/
def firstSeenGo (seen : List String) : List String → List String
  | [] => []
  | x :: xs =>
    if seen.contains x then firstSeenGo seen xs
    else x :: firstSeenGo (x :: seen) xs

/-- The distinct values of a list in order of first occurrence. -/
def firstSeen (l : List String) : List String :=
  firstSeenGo [] l

/-- The column list of `pd.DataFrame(rows)` for a list of row dicts: keys in
order of first appearance scanning the rows. -/
def dfColumns (rows : List (List (String × JSON))) : List String :=
  firstSeen (rows.map (fun r => r.map Prod.fst)).flatten

example : convert_instagram_insights
      (.obj [("data", .arr [.obj [("name", .str "reach"),
        ("values", .arr [.obj [("end_time", .str "2024-01-01"), ("value", .num 10)]])]])])
    = .ok [[("metric", .str "reach"), ("end_time", .str "2024-01-01"), ("value", .num 10)]] := by
  decide

example : convert_instagram_insights (.num 5) = .error .typeError := by decide

example : convert_instagram_insights (.obj [("other", .num 1)]) = .ok [] := by decide

example : convert_instagram_insights (.obj [("data", .arr [.obj []])]) = .error .keyError := by
  decide

example : save_insights_data
      (.obj [("data", .arr [.obj [("name", .str "reach"),
        ("values", .arr [.obj [("end_time", .str "2024-01-01"), ("value", .num 10)]])]])])
    = .ok [[("metric", .str "reach"), ("date", .str "2024-01-01"), ("value", .num 10)]] := by
  decide

example : save_insights_data (.obj [("data", .arr [.obj [("values", .arr [])]])])
    = .ok [] := by decide

example : save_insights_data (.obj [("data", .arr [.obj [("values", .arr [.obj []])]])])
    = .error .keyError := by decide

/-! ## Pivot (spec-modelled)

The scripts hand the pivot step to an external tabular library
(`df.pivot(index=..., columns='metric', values='value')`); that library's
code is not under src, so the pivot is modelled from the spec's contract
in section 4.2. -/

/-- Lexicographic order on character lists by code point; the canonical
ascending order used for the pivot's row index. -/
def lexLe : List Char → List Char → Bool
  | [], _ => true
  | _ :: _, [] => false
  | a :: as, b :: bs => if a = b then lexLe as bs else decide (a.toNat < b.toNat)

/-- Lexicographic order on strings by code point. -/
def strLeB (a b : String) : Bool :=
  lexLe a.data b.data

/-- Modelled from the spec: one long-format observation,
`LongRow{metric, timestamp, value}` of section 3. -/
structure LongRow where
  metric : String
  timestamp : String
  value : JSON
deriving DecidableEq

/-- Modelled from the spec: the wide table of section 3, one row per distinct
timestamp, one column per distinct metric, `cells` in row-major order with
`none` where no observation exists. -/
structure WideTable where
  dates : List String
  metrics : List String
  cells : List (List (Option JSON))
deriving DecidableEq

/-- The pivot's failure: a duplicate (timestamp, metric) pair. -/
inductive PivotErr where
  | collisionError : PivotErr
deriving DecidableEq

/-- `true` when no key occurs twice. -/
def keysNodupB : List (String × String) → Bool
  | [] => true
  | k :: rest => !(rest.contains k) && keysNodupB rest

/-- The value observed for `(d, m)`, if any: the pivot's cell content. -/
def lookupCell (norm : String → String) (rows : List LongRow) (d m : String) : Option JSON :=
  (rows.find? (fun r => norm r.timestamp == d && r.metric == m)).map (fun r => r.value)

/-- Modelled from the spec, section 4.2: `pivot` groups rows by normalized
timestamp, fails with CollisionError on a duplicate (timestamp, metric) pair,
orders rows ascending by normalized timestamp and columns by first-seen order
of metric names, and leaves `none` in every cell with no observation.
`norm` is the timestamp normalization. -/
def pivot (norm : String → String) (rows : List LongRow) : Except PivotErr WideTable :=
  if keysNodupB (rows.map (fun r => (norm r.timestamp, r.metric))) then
    let dates := List.insertionSort (fun a b => strLeB a b = true)
      (firstSeen (rows.map (fun r => norm r.timestamp)))
    let metrics := firstSeen (rows.map (fun r => r.metric))
    .ok ⟨dates, metrics, dates.map (fun d => metrics.map (fun m => lookupCell norm rows d m))⟩
  else .error .collisionError

/-- The cell of a wide table at row label `d` and column label `m`:
`none` when the labels are absent, `some c` for the stored cell `c`. -/
def cellOf (wt : WideTable) (d m : String) : Option (Option JSON) :=
  match wt.cells[wt.dates.indexOf d]? with
  | none => none
  | some row => row[wt.metrics.indexOf m]?

example : pivot id
      [⟨"reach", "2024-01-02", .num 5⟩, ⟨"views", "2024-01-01", .num 7⟩,
       ⟨"reach", "2024-01-01", .num 6⟩]
    = .ok ⟨["2024-01-01", "2024-01-02"], ["reach", "views"],
        [[some (.num 6), some (.num 7)], [some (.num 5), none]]⟩ := by decide

example : pivot id [⟨"reach", "2024-01-01", .num 5⟩, ⟨"reach", "2024-01-01", .num 7⟩]
    = .error .collisionError := by decide

/-! ## Predicates and counts used to state the claims -/

mutual

/-- The number of scalar leaves `flatten_json` is expected to produce: each
element of a list classified as a list of records contributes its own leaves,
every other list counts as one leaf, and scalars count as one. -/
def leafCount : JSON → Nat
  | .obj kvs => leafFields kvs
  | .arr (x :: rest) => if isObjB x then leafElems (x :: rest) else 1
  | _ => 1

/-- Sum of `leafCount` over the elements of a list of records. -/
def leafElems : List JSON → Nat
  | [] => 0
  | x :: rest => leafCount x + leafElems rest

/-- Sum of `leafCount` over the values of a mapping. -/
def leafFields : List (String × JSON) → Nat
  | [] => 0
  | (_, v) :: rest => leafCount v + leafFields rest

end

mutual

/-- `true` when every list the flattening traversal classifies as a list of
records (non-empty, first element a mapping) consists of mappings throughout,
recursively.  Lists stored as text are not traversed, so their contents are
unconstrained. -/
def noMixed : JSON → Bool
  | .obj kvs => noMixedFields kvs
  | .arr (x :: rest) => if isObjB x then noMixedElems (x :: rest) else true
  | _ => true

/-- All elements of a record list are mappings and recursively unmixed. -/
def noMixedElems : List JSON → Bool
  | [] => true
  | x :: rest => isObjB x && noMixed x && noMixedElems rest

/-- All values of a mapping are recursively unmixed. -/
def noMixedFields : List (String × JSON) → Bool
  | [] => true
  | (_, v) :: rest => noMixed v && noMixedFields rest

end

/-- `true` when the keys of one mapping level are pairwise distinct. -/
def keysNodupStrB : List String → Bool
  | [] => true
  | k :: rest => !(rest.contains k) && keysNodupStrB rest

mutual

/-- Keys are pairwise distinct at every nesting level, including inside
lists; the hypothesis of the key-count claim as the spec states it. -/
def uniqKeys : JSON → Bool
  | .obj kvs => keysNodupStrB (kvs.map Prod.fst) && uniqFields kvs
  | .arr xs => uniqElems xs
  | _ => true

/-- `uniqKeys` on every element. -/
def uniqElems : List JSON → Bool
  | [] => true
  | x :: rest => uniqKeys x && uniqElems rest

/-- `uniqKeys` on every value. -/
def uniqFields : List (String × JSON) → Bool
  | [] => true
  | (_, v) :: rest => uniqKeys v && uniqFields rest

end

/-- Keys of one mapping level are pairwise distinct, non-empty, and free of
the separator character `c`. -/
def keysOkB (c : Char) : List String → Bool
  | [] => true
  | k :: rest => !(k.data.contains c) && !k.data.isEmpty && !(rest.contains k) && keysOkB c rest

mutual

/-- The hypothesis under which composite keys cannot collide: at every
nesting level the traversal reaches, keys are pairwise distinct, non-empty
and free of the separator character, and every record list consists of
mappings. -/
def wellKeyed (c : Char) : JSON → Bool
  | .obj kvs => keysOkB c (kvs.map Prod.fst) && wellKeyedFields c kvs
  | .arr (x :: rest) => if isObjB x then wellKeyedElems c (x :: rest) else true
  | _ => true

/-- Every element of a record list is a mapping and `wellKeyed`. -/
def wellKeyedElems (c : Char) : List JSON → Bool
  | [] => true
  | x :: rest => isObjB x && wellKeyed c x && wellKeyedElems c rest

/-- Every value of a mapping is `wellKeyed`. -/
def wellKeyedFields (c : Char) : List (String × JSON) → Bool
  | [] => true
  | (_, v) :: rest => wellKeyed c v && wellKeyedFields c rest

end

/-! ## Facts about the model of Python dict -/

theorem lastVal_of_not_mem (k : String) (v : JSON) :
    ∀ rest : List (String × JSON), (∀ p ∈ rest, p.1 ≠ k) → lastVal k v rest = v := by
  intro rest
  induction rest with
  | nil => intro _; rfl
  | cons p rest ih =>
    intro h
    obtain ⟨l, w⟩ := p
    have hl : l ≠ k := h (l, w) (by simp)
    simp only [lastVal, if_neg hl]
    exact ih fun q hq => h q (by simp [hq])

theorem pyDictGo_eq_self :
    ∀ (items : List (String × JSON)) (seen : List String),
      (items.map Prod.fst).Nodup → (∀ p ∈ items, p.1 ∉ seen) → pyDictGo seen items = items := by
  intro items
  induction items with
  | nil => intro seen _ _; rfl
  | cons p rest ih =>
    intro seen hnd hseen
    obtain ⟨k, v⟩ := p
    simp only [List.map_cons, List.nodup_cons, List.mem_map] at hnd
    have hk : k ∉ seen := hseen (k, v) (by simp)
    have hcont : seen.contains k = false := by
      simp [hk]
    have hrest : ∀ p ∈ rest, p.1 ≠ k := by
      intro q hq hqk
      exact hnd.1 ⟨q, hq, hqk⟩
    simp only [pyDictGo, hcont, Bool.false_eq_true, if_false]
    rw [lastVal_of_not_mem k v rest hrest]
    rw [ih (k :: seen) hnd.2]
    intro q hq
    simp only [List.mem_cons]
    rintro (h | h)
    · exact hrest q hq h
    · exact hseen q (by simp [hq]) h

theorem pyDict_eq_self (items : List (String × JSON)) (h : (items.map Prod.fst).Nodup) :
    pyDict items = items :=
  pyDictGo_eq_self items [] h (by simp)

theorem mem_keys_pyDictGo :
    ∀ (items : List (String × JSON)) (seen : List String) (a : String),
      a ∈ (pyDictGo seen items).map Prod.fst ↔ a ∈ items.map Prod.fst ∧ a ∉ seen := by
  intro items
  induction items with
  | nil => intro seen a; simp [pyDictGo]
  | cons p rest ih =>
    intro seen a
    obtain ⟨k, v⟩ := p
    by_cases hk : k ∈ seen
    · have hc : seen.contains k = true := by simpa using hk
      simp only [pyDictGo, hc, if_true]
      rw [ih seen a]
      by_cases ha : a = k
      · subst ha; simp [hk]
      · simp [ha]
    · have hc : seen.contains k = false := by simpa using hk
      simp only [pyDictGo, hc, Bool.false_eq_true, if_false, List.map_cons, List.mem_cons]
      rw [ih (k :: seen) a]
      by_cases ha : a = k
      · subst ha; simp [hk]
      · simp only [List.mem_cons, ha, false_or]

theorem nodup_keys_pyDictGo :
    ∀ (items : List (String × JSON)) (seen : List String),
      ((pyDictGo seen items).map Prod.fst).Nodup := by
  intro items
  induction items with
  | nil => intro seen; simp [pyDictGo]
  | cons p rest ih =>
    intro seen
    obtain ⟨k, v⟩ := p
    by_cases hk : k ∈ seen
    · have hc : seen.contains k = true := by simpa using hk
      simp only [pyDictGo, hc, if_true]
      exact ih seen
    · have hc : seen.contains k = false := by simpa using hk
      simp only [pyDictGo, hc, Bool.false_eq_true, if_false, List.map_cons, List.nodup_cons]
      refine ⟨?_, ih (k :: seen)⟩
      rw [mem_keys_pyDictGo]
      simp

theorem nodup_keys_pyDict (items : List (String × JSON)) :
    ((pyDict items).map Prod.fst).Nodup :=
  nodup_keys_pyDictGo items []

theorem pyDict_idem (items : List (String × JSON)) : pyDict (pyDict items) = pyDict items :=
  pyDict_eq_self _ (nodup_keys_pyDict items)

/-! ## When flattening succeeds

`flatten_json` can only raise while recursing into an element of a list it
classified as a list of records; the two mutual blocks below show that it
succeeds exactly on inputs whose record lists are mappings throughout. -/

mutual

theorem flattenEntry_ok_of_noMixed :
    ∀ (v : JSON) (q sep : String), noMixed v = true → ∃ r, flattenEntry v q sep = .ok r
  | .null, q, sep => fun _ => ⟨_, rfl⟩
  | .bool b, q, sep => fun _ => ⟨_, rfl⟩
  | .num n, q, sep => fun _ => ⟨_, rfl⟩
  | .str s, q, sep => fun _ => ⟨_, rfl⟩
  | .obj kvs, q, sep => by
    intro h
    obtain ⟨r, hr⟩ := flattenPairs_ok_of_noMixed kvs q sep (by simpa [noMixed] using h)
    exact ⟨pyDict r, by simp only [flattenEntry, hr]; rfl⟩
  | .arr [], q, sep => fun _ => ⟨_, rfl⟩
  | .arr (x :: rest), q, sep => by
    intro h
    cases x with
    | obj kvs =>
      obtain ⟨r, hr⟩ := flattenItems_ok_of_noMixed (JSON.obj kvs :: rest) q sep 0
        (by simpa [noMixed, isObjB] using h)
      exact ⟨r, by simpa [flattenEntry] using hr⟩
    | null => exact ⟨_, rfl⟩
    | bool b => exact ⟨_, rfl⟩
    | num n => exact ⟨_, rfl⟩
    | str s => exact ⟨_, rfl⟩
    | arr ys => exact ⟨_, rfl⟩

theorem flattenPairs_ok_of_noMixed :
    ∀ (kvs : List (String × JSON)) (p sep : String),
      noMixedFields kvs = true → ∃ r, flattenPairs kvs p sep = .ok r
  | [], p, sep => fun _ => ⟨[], rfl⟩
  | (k, v) :: rest, p, sep => by
    intro h
    simp only [noMixedFields, Bool.and_eq_true] at h
    obtain ⟨h1, h2⟩ := h
    obtain ⟨r1, hr1⟩ :=
      flattenEntry_ok_of_noMixed v (if p = "" then k else p ++ sep ++ k) sep h1
    obtain ⟨r2, hr2⟩ := flattenPairs_ok_of_noMixed rest p sep h2
    exact ⟨r1 ++ r2, by simp [flattenPairs, hr1, hr2]⟩

theorem flattenItems_ok_of_noMixed :
    ∀ (xs : List JSON) (q sep : String) (i : Nat),
      noMixedElems xs = true → ∃ r, flattenItems xs q sep i = .ok r
  | [], q, sep, i => fun _ => ⟨[], rfl⟩
  | x :: rest, q, sep, i => by
    intro h
    simp only [noMixedElems, Bool.and_eq_true] at h
    obtain ⟨⟨hobj, hnm⟩, hrest⟩ := h
    cases x with
    | obj kvs =>
      obtain ⟨r1, hr1⟩ :=
        flattenPairs_ok_of_noMixed kvs (q ++ sep ++ Nat.repr i) sep (by simpa [noMixed] using hnm)
      obtain ⟨r2, hr2⟩ := flattenItems_ok_of_noMixed rest q sep (i + 1) hrest
      refine ⟨pyDict r1 ++ r2, ?_⟩
      simp only [flattenItems, flatten_json, hr1, hr2]
      rfl
    | null => simp [isObjB] at hobj
    | bool b => simp [isObjB] at hobj
    | num n => simp [isObjB] at hobj
    | str s => simp [isObjB] at hobj
    | arr ys => simp [isObjB] at hobj

end

mutual

theorem noMixed_of_flattenEntry_ok :
    ∀ (v : JSON) (q sep : String) (r : List (String × JSON)),
      flattenEntry v q sep = .ok r → noMixed v = true
  | .null, q, sep, r => fun _ => rfl
  | .bool b, q, sep, r => fun _ => rfl
  | .num n, q, sep, r => fun _ => rfl
  | .str s, q, sep, r => fun _ => rfl
  | .obj kvs, q, sep, r => by
    intro h
    simp only [flattenEntry] at h
    cases hp : flattenPairs kvs q sep with
    | error e => rw [hp] at h; exact absurd h (by simp [Except.map])
    | ok r1 =>
      simpa [noMixed] using noMixedFields_of_flattenPairs_ok kvs q sep r1 hp
  | .arr [], q, sep, r => fun _ => rfl
  | .arr (x :: rest), q, sep, r => by
    intro h
    cases x with
    | obj kvs =>
      simp only [flattenEntry] at h
      have := noMixedElems_of_flattenItems_ok (JSON.obj kvs :: rest) q sep 0 r h
      simpa [noMixed, isObjB] using this
    | null => rfl
    | bool b => rfl
    | num n => rfl
    | str s => rfl
    | arr ys => rfl

theorem noMixedFields_of_flattenPairs_ok :
    ∀ (kvs : List (String × JSON)) (p sep : String) (r : List (String × JSON)),
      flattenPairs kvs p sep = .ok r → noMixedFields kvs = true
  | [], p, sep, r => fun _ => rfl
  | (k, v) :: rest, p, sep, r => by
    intro h
    simp only [flattenPairs] at h
    cases he : flattenEntry v (if p = "" then k else p ++ sep ++ k) sep with
    | error e => rw [he] at h; exact absurd h (by simp)
    | ok r1 =>
      rw [he] at h
      cases hrest : flattenPairs rest p sep with
      | error e => rw [hrest] at h; exact absurd h (by simp)
      | ok r2 =>
        simp only [noMixedFields, Bool.and_eq_true]
        exact ⟨noMixed_of_flattenEntry_ok v _ sep r1 he,
          noMixedFields_of_flattenPairs_ok rest p sep r2 hrest⟩

theorem noMixedElems_of_flattenItems_ok :
    ∀ (xs : List JSON) (q sep : String) (i : Nat) (r : List (String × JSON)),
      flattenItems xs q sep i = .ok r → noMixedElems xs = true
  | [], q, sep, i, r => fun _ => rfl
  | x :: rest, q, sep, i, r => by
    intro h
    simp only [flattenItems] at h
    cases hx : flatten_json x (q ++ sep ++ Nat.repr i) sep with
    | error e => rw [hx] at h; exact absurd h (by simp)
    | ok r1 =>
      rw [hx] at h
      cases hrest : flattenItems rest q sep (i + 1) with
      | error e => rw [hrest] at h; exact absurd h (by simp)
      | ok r2 =>
        cases x with
        | obj kvs =>
          simp only [flatten_json] at hx
          cases hp : flattenPairs kvs (q ++ sep ++ Nat.repr i) sep with
          | error e => rw [hp] at hx; exact absurd hx (by simp [Except.map])
          | ok r3 =>
            have hnm := noMixedFields_of_flattenPairs_ok kvs _ sep r3 hp
            have hrec := noMixedElems_of_flattenItems_ok rest q sep (i + 1) r2 hrest
            simp [noMixedElems, isObjB, noMixed, hnm, hrec]
        | null => exact absurd hx (by simp [flatten_json])
        | bool b => exact absurd hx (by simp [flatten_json])
        | num n => exact absurd hx (by simp [flatten_json])
        | str s => exact absurd hx (by simp [flatten_json])
        | arr ys => exact absurd hx (by simp [flatten_json])

end

/-- `flatten_json` on a mapping succeeds exactly when every record list it
reaches consists of mappings. -/
theorem flatten_json_obj_ok_iff (kvs : List (String × JSON)) (p sep : String) :
    (∃ r, flatten_json (.obj kvs) p sep = .ok r) ↔ noMixed (.obj kvs) = true := by
  constructor
  · rintro ⟨r, hr⟩
    simp only [flatten_json] at hr
    cases hp : flattenPairs kvs p sep with
    | error e => rw [hp] at hr; exact absurd hr (by simp [Except.map])
    | ok r1 => simpa [noMixed] using noMixedFields_of_flattenPairs_ok kvs p sep r1 hp
  · intro h
    obtain ⟨r, hr⟩ := flattenPairs_ok_of_noMixed kvs p sep (by simpa [noMixed] using h)
    exact ⟨pyDict r, by simp only [flatten_json, hr]; rfl⟩

/-- `flatten_json` raises its `AttributeError` exactly on a non-mapping
argument or a mapping whose traversal reaches a mixed record list. -/
theorem flatten_json_error_iff (j : JSON) (p sep : String) :
    flatten_json j p sep = .error .attributeError ↔ (isObjB j = false ∨ noMixed j = false) := by
  cases j with
  | obj kvs =>
    simp only [isObjB]
    constructor
    · intro h
      refine Or.inr ?_
      cases hn : noMixed (.obj kvs)
      · rfl
      · obtain ⟨r, hr⟩ := (flatten_json_obj_ok_iff kvs p sep).mpr hn
        rw [h] at hr; exact absurd hr (by simp)
    · rintro (h | h)
      · exact absurd h (by simp)
      · cases he : flatten_json (.obj kvs) p sep with
        | error e => cases e; rfl
        | ok r =>
          have := (flatten_json_obj_ok_iff kvs p sep).mp ⟨r, he⟩
          rw [this] at h; exact absurd h (by simp)
  | null => simp [flatten_json, isObjB]
  | bool b => simp [flatten_json, isObjB]
  | num n => simp [flatten_json, isObjB]
  | str s => simp [flatten_json, isObjB]
  | arr xs => simp [flatten_json, isObjB]

/-- Values of an unmixed mapping are unmixed. -/
theorem noMixed_of_mem_fields :
    ∀ (kvs : List (String × JSON)), noMixedFields kvs = true →
      ∀ k v, (k, v) ∈ kvs → noMixed v = true := by
  intro kvs
  induction kvs with
  | nil => intro _ k v hv; simp at hv
  | cons p rest ih =>
    obtain ⟨l, w⟩ := p
    intro h k v hv
    simp only [noMixedFields, Bool.and_eq_true] at h
    rcases List.mem_cons.mp hv with h1 | h1
    · cases h1; exact h.1
    · exact ih h.2 k v h1

/-- Every element of an unmixed record list is a mapping. -/
theorem isObj_of_mem_elems :
    ∀ (xs : List JSON), noMixedElems xs = true → ∀ x ∈ xs, isObjB x = true := by
  intro xs
  induction xs with
  | nil => intro _ x hx; simp at hx
  | cons y rest ih =>
    intro h x hx
    simp only [noMixedElems, Bool.and_eq_true] at h
    rcases List.mem_cons.mp hx with h1 | h1
    · subst h1; exact h.1.1
    · exact ih h.2 x h1

/-! ## Decimal index segments

`flatten_json` builds composite keys for list elements from `str(i)`.  The
facts needed about those segments: their characters are decimal digits, and
two distinct indices render differently. -/

theorem digitChar_isDigit (m : Nat) (h : m < 10) : (Nat.digitChar m).isDigit = true := by
  interval_cases m <;> decide

/-- The numeric value of a decimal digit character. -/
def digitVal (ch : Char) : Nat := ch.toNat - 48

theorem digitChar_val (m : Nat) (h : m < 10) : digitVal (Nat.digitChar m) = m := by
  interval_cases m <;> decide

theorem toDigitsCore_isDigit :
    ∀ (fuel n : Nat) (acc : List Char), (∀ ch ∈ acc, ch.isDigit = true) →
      ∀ ch ∈ Nat.toDigitsCore 10 fuel n acc, ch.isDigit = true := by
  intro fuel
  induction fuel with
  | zero =>
    intro n acc hacc ch hch
    simp only [Nat.toDigitsCore] at hch
    exact hacc ch hch
  | succ f ih =>
    intro n acc hacc ch hch
    simp only [Nat.toDigitsCore] at hch
    have hd : (Nat.digitChar (n % 10)).isDigit = true :=
      digitChar_isDigit _ (Nat.mod_lt _ (by omega))
    by_cases h0 : n / 10 = 0
    · rw [if_pos h0] at hch
      rcases List.mem_cons.mp hch with h1 | h1
      · subst h1; exact hd
      · exact hacc ch h1
    · rw [if_neg h0] at hch
      refine ih (n / 10) (Nat.digitChar (n % 10) :: acc) ?_ ch hch
      intro c hc
      rcases List.mem_cons.mp hc with h1 | h1
      · subst h1; exact hd
      · exact hacc c h1

theorem toDigitsCore_acc :
    ∀ (fuel n : Nat) (acc : List Char),
      Nat.toDigitsCore 10 fuel n acc = Nat.toDigitsCore 10 fuel n [] ++ acc := by
  intro fuel
  induction fuel with
  | zero => intro n acc; simp [Nat.toDigitsCore]
  | succ f ih =>
    intro n acc
    simp only [Nat.toDigitsCore]
    by_cases h0 : n / 10 = 0
    · simp [h0]
    · rw [if_neg h0, if_neg h0, ih (n / 10) (Nat.digitChar (n % 10) :: acc),
        ih (n / 10) [Nat.digitChar (n % 10)]]
      simp

/-- The number a list of decimal digit characters denotes. -/
def digitsVal (l : List Char) : Nat := l.foldl (fun a ch => 10 * a + digitVal ch) 0

theorem digitsVal_snoc (l : List Char) (ch : Char) :
    digitsVal (l ++ [ch]) = 10 * digitsVal l + digitVal ch := by
  simp [digitsVal, List.foldl_append]

theorem toDigitsCore_val :
    ∀ (fuel n : Nat), n < fuel → digitsVal (Nat.toDigitsCore 10 fuel n []) = n := by
  intro fuel
  induction fuel with
  | zero => intro n hn; omega
  | succ f ih =>
    intro n hn
    simp only [Nat.toDigitsCore]
    by_cases h0 : n / 10 = 0
    · rw [if_pos h0]
      have hval : digitVal (Nat.digitChar (n % 10)) = n % 10 :=
        digitChar_val _ (Nat.mod_lt _ (by omega))
      simp only [digitsVal, List.foldl_cons, List.foldl_nil, Nat.mul_zero, Nat.zero_add]
      omega
    · rw [if_neg h0, toDigitsCore_acc f (n / 10) [Nat.digitChar (n % 10)], digitsVal_snoc]
      have hlt : n / 10 < f := by omega
      rw [ih (n / 10) hlt, digitChar_val _ (Nat.mod_lt _ (by omega))]
      omega

theorem repr_data_eq_toDigits (n : Nat) : (Nat.repr n).data = Nat.toDigits 10 n := rfl

theorem repr_inj (m n : Nat) (h : Nat.repr m = Nat.repr n) : m = n := by
  have hdata : (Nat.repr m).data = (Nat.repr n).data := by rw [h]
  rw [repr_data_eq_toDigits, repr_data_eq_toDigits] at hdata
  have hm : digitsVal (Nat.toDigits 10 m) = m := toDigitsCore_val (m + 1) m (by omega)
  have hn : digitsVal (Nat.toDigits 10 n) = n := toDigitsCore_val (n + 1) n (by omega)
  rw [← hm, ← hn, hdata]

theorem repr_isDigit (n : Nat) : ∀ ch ∈ (Nat.repr n).data, ch.isDigit = true := by
  intro ch hch
  rw [repr_data_eq_toDigits] at hch
  exact toDigitsCore_isDigit (n + 1) n [] (by simp) ch hch

theorem not_mem_repr (c : Char) (hc : c.isDigit = false) (n : Nat) :
    c ∉ (Nat.repr n).data := by
  intro hmem
  rw [repr_isDigit n c hmem] at hc
  exact Bool.noConfusion hc

/-! ## Segments of composite keys

A composite key is the separator-joined list of the path segments that
produced it.  When the separator is a single character that occurs in no
segment, the first segment can be read back off the key, which is what makes
composite keys of distinct paths distinct. -/

theorem str_ext {a b : String} (h : a.data = b.data) : a = b := by
  cases a; cases b; simp_all

/-- `t` is a possible continuation of a composite key after a segment:
either nothing, or a separator followed by more text. -/
def ExtL (c : Char) (t : List Char) : Prop :=
  t = [] ∨ ∃ u, t = c :: u

theorem takeWhile_append_seg (p : Char → Bool) :
    ∀ (l1 l2 : List Char), (∀ a ∈ l1, p a = true) → (∀ x ∈ l2.head?, p x = false) →
      (l1 ++ l2).takeWhile p = l1 := by
  intro l1
  induction l1 with
  | nil =>
    intro l2 _ h2
    cases l2 with
    | nil => rfl
    | cons x xs =>
      have := h2 x (by simp)
      simp [List.takeWhile_cons, this]
  | cons a l ih =>
    intro l2 h1 h2
    have ha := h1 a (by simp)
    simp only [List.cons_append, List.takeWhile_cons, ha, if_true]
    rw [ih l2 (fun b hb => h1 b (by simp [hb])) h2]

theorem seg_cancel (c : Char) :
    ∀ (k1 k2 t1 t2 : List Char), c ∉ k1 → c ∉ k2 → ExtL c t1 → ExtL c t2 →
      k1 ++ t1 = k2 ++ t2 → k1 = k2 ∧ t1 = t2 := by
  intro k1 k2 t1 t2 hk1 hk2 ht1 ht2 h
  have hp1 : ∀ a ∈ k1, (decide (a ≠ c)) = true := by
    intro a ha
    simp only [decide_eq_true_eq]
    intro hac; exact hk1 (hac ▸ ha)
  have hp2 : ∀ a ∈ k2, (decide (a ≠ c)) = true := by
    intro a ha
    simp only [decide_eq_true_eq]
    intro hac; exact hk2 (hac ▸ ha)
  have hh1 : ∀ x ∈ t1.head?, (decide (x ≠ c)) = false := by
    rcases ht1 with h1 | ⟨u, h1⟩ <;> subst h1 <;> simp
  have hh2 : ∀ x ∈ t2.head?, (decide (x ≠ c)) = false := by
    rcases ht2 with h1 | ⟨u, h1⟩ <;> subst h1 <;> simp
  have e1 : (k1 ++ t1).takeWhile (fun a => decide (a ≠ c)) = k1 :=
    takeWhile_append_seg _ k1 t1 hp1 hh1
  have e2 : (k2 ++ t2).takeWhile (fun a => decide (a ≠ c)) = k2 :=
    takeWhile_append_seg _ k2 t2 hp2 hh2
  have hk : k1 = k2 := by rw [← e1, ← e2, h]
  subst hk
  exact ⟨rfl, List.append_cancel_left h⟩

theorem data_append3 (a b d : String) : (a ++ b ++ d).data = a.data ++ b.data ++ d.data := by
  simp [String.data_append]

theorem singleton_data (c : Char) : (String.singleton c).data = [c] := rfl

theorem keysOkB_cons (c : Char) (k : String) (rest : List String) :
    keysOkB c (k :: rest) = true ↔
      (c ∉ k.data ∧ k.data ≠ [] ∧ k ∉ rest ∧ keysOkB c rest = true) := by
  simp [keysOkB, List.isEmpty_iff, and_assoc]

theorem keysOkB_mem (c : Char) :
    ∀ (keys : List String), keysOkB c keys = true → ∀ k ∈ keys, c ∉ k.data ∧ k.data ≠ [] := by
  intro keys
  induction keys with
  | nil => intro _ k hk; simp at hk
  | cons a rest ih =>
    intro h k hk
    rw [keysOkB_cons] at h
    rcases List.mem_cons.mp hk with h1 | h1
    · subst h1; exact ⟨h.1, h.2.1⟩
    · exact ih h.2.2.2 k h1

theorem str_ne_empty {s : String} (h : s.data ≠ []) : s ≠ "" := by
  intro he
  subst he
  exact h rfl

theorem append_cons_cancel (X : List Char) (c : Char) {A B : List Char}
    (h : X ++ (c :: A) = X ++ (c :: B)) : A = B := by
  have h1 := List.append_cancel_left h
  simpa using h1

/-! ## Key structure of a well-keyed flattening

Under `wellKeyed c` and a single non-digit separator character `c`, the three
lemmas below show at once that flattening succeeds, produces one item per
leaf, produces pairwise-distinct keys, and produces keys that extend the
current prefix by a separator-led tail. -/

mutual

theorem flattenEntry_spec :
    ∀ (v : JSON) (q : String) (c : Char), c.isDigit = false → wellKeyed c v = true →
      q ≠ "" →
      ∃ r, flattenEntry v q (String.singleton c) = .ok r ∧
        r.length = leafCount v ∧
        (r.map Prod.fst).Nodup ∧
        (∀ key ∈ r.map Prod.fst, ∃ t, ExtL c t ∧ key.data = q.data ++ t)
  | .null, q, c => by
    intro _ _ _
    refine ⟨[(q, .null)], rfl, rfl, by simp, ?_⟩
    intro key hk
    simp only [List.map_cons, List.map_nil, List.mem_singleton] at hk
    subst hk
    exact ⟨[], Or.inl rfl, by simp⟩
  | .bool b, q, c => by
    intro _ _ _
    refine ⟨[(q, .bool b)], rfl, rfl, by simp, ?_⟩
    intro key hk
    simp only [List.map_cons, List.map_nil, List.mem_singleton] at hk
    subst hk
    exact ⟨[], Or.inl rfl, by simp⟩
  | .num n, q, c => by
    intro _ _ _
    refine ⟨[(q, .num n)], rfl, rfl, by simp, ?_⟩
    intro key hk
    simp only [List.map_cons, List.map_nil, List.mem_singleton] at hk
    subst hk
    exact ⟨[], Or.inl rfl, by simp⟩
  | .str s, q, c => by
    intro _ _ _
    refine ⟨[(q, .str s)], rfl, rfl, by simp, ?_⟩
    intro key hk
    simp only [List.map_cons, List.map_nil, List.mem_singleton] at hk
    subst hk
    exact ⟨[], Or.inl rfl, by simp⟩
  | .obj kvs, q, c => by
    intro hc hwk hq
    have hsplit : keysOkB c (kvs.map Prod.fst) = true ∧ wellKeyedFields c kvs = true := by
      simpa [wellKeyed, Bool.and_eq_true] using hwk
    obtain ⟨r, hr, hlen, hnd, hform⟩ := flattenPairs_spec kvs q c hc hsplit.1 hsplit.2
    refine ⟨r, ?_, hlen, hnd, ?_⟩
    · have h1 : flattenEntry (.obj kvs) q (String.singleton c)
          = Except.ok (pyDict r) := by
        simp only [flattenEntry, hr]; rfl
      rw [h1, pyDict_eq_self r hnd]
    · intro key hk
      obtain ⟨k, t, hkmem, ht, hdata⟩ := hform key hk
      rw [if_neg hq] at hdata
      refine ⟨c :: (k.data ++ t), Or.inr ⟨_, rfl⟩, ?_⟩
      rw [hdata]
      simp
  | .arr [], q, c => by
    intro _ _ _
    refine ⟨[(q, .str (pyRepr (.arr [])))], rfl, rfl, by simp, ?_⟩
    intro key hk
    simp only [List.map_cons, List.map_nil, List.mem_singleton] at hk
    subst hk
    exact ⟨[], Or.inl rfl, by simp⟩
  | .arr (x :: rest), q, c => by
    intro hc hwk hq
    cases x with
    | obj kvsx =>
      have helems : wellKeyedElems c (JSON.obj kvsx :: rest) = true := by
        simpa [wellKeyed, isObjB] using hwk
      obtain ⟨r, hr, hlen, hnd, hform⟩ :=
        flattenItems_spec (JSON.obj kvsx :: rest) q 0 c hc helems
      refine ⟨r, ?_, ?_, hnd, ?_⟩
      · simpa [flattenEntry] using hr
      · rw [hlen]; simp [leafCount, isObjB]
      · intro key hk
        obtain ⟨j, t, _, _, ht, hdata⟩ := hform key hk
        refine ⟨c :: ((Nat.repr j).data ++ t), Or.inr ⟨_, rfl⟩, ?_⟩
        rw [hdata]
        simp
    | null =>
      refine ⟨[(q, .str (pyRepr (.arr (.null :: rest))))], rfl, ?_, by simp, ?_⟩
      · simp [leafCount, isObjB]
      · intro key hk
        simp only [List.map_cons, List.map_nil, List.mem_singleton] at hk
        subst hk
        exact ⟨[], Or.inl rfl, by simp⟩
    | bool b =>
      refine ⟨[(q, .str (pyRepr (.arr (.bool b :: rest))))], rfl, ?_, by simp, ?_⟩
      · simp [leafCount, isObjB]
      · intro key hk
        simp only [List.map_cons, List.map_nil, List.mem_singleton] at hk
        subst hk
        exact ⟨[], Or.inl rfl, by simp⟩
    | num n =>
      refine ⟨[(q, .str (pyRepr (.arr (.num n :: rest))))], rfl, ?_, by simp, ?_⟩
      · simp [leafCount, isObjB]
      · intro key hk
        simp only [List.map_cons, List.map_nil, List.mem_singleton] at hk
        subst hk
        exact ⟨[], Or.inl rfl, by simp⟩
    | str s =>
      refine ⟨[(q, .str (pyRepr (.arr (.str s :: rest))))], rfl, ?_, by simp, ?_⟩
      · simp [leafCount, isObjB]
      · intro key hk
        simp only [List.map_cons, List.map_nil, List.mem_singleton] at hk
        subst hk
        exact ⟨[], Or.inl rfl, by simp⟩
    | arr ys =>
      refine ⟨[(q, .str (pyRepr (.arr (.arr ys :: rest))))], rfl, ?_, by simp, ?_⟩
      · simp [leafCount, isObjB]
      · intro key hk
        simp only [List.map_cons, List.map_nil, List.mem_singleton] at hk
        subst hk
        exact ⟨[], Or.inl rfl, by simp⟩

theorem flattenPairs_spec :
    ∀ (kvs : List (String × JSON)) (p : String) (c : Char), c.isDigit = false →
      keysOkB c (kvs.map Prod.fst) = true → wellKeyedFields c kvs = true →
      ∃ r, flattenPairs kvs p (String.singleton c) = .ok r ∧
        r.length = leafFields kvs ∧
        (r.map Prod.fst).Nodup ∧
        (∀ key ∈ r.map Prod.fst, ∃ k t, k ∈ kvs.map Prod.fst ∧ ExtL c t ∧
          key.data = (if p = "" then k.data else p.data ++ [c] ++ k.data) ++ t)
  | [], p, c => by
    intro _ _ _
    exact ⟨[], rfl, rfl, by simp, by simp⟩
  | (k0, v) :: rest, p, c => by
    intro hc hkeys hflds
    rw [List.map_cons, keysOkB_cons] at hkeys
    obtain ⟨hk0c, hk0ne, hk0nr, hkrest⟩ := hkeys
    have hv : wellKeyed c v = true ∧ wellKeyedFields c rest = true := by
      simpa [wellKeyedFields, Bool.and_eq_true] using hflds
    have hnkne : (if p = "" then k0 else p ++ String.singleton c ++ k0) ≠ "" := by
      apply str_ne_empty
      by_cases hp : p = "" <;>
        simp [hp, hk0ne, String.data_append, singleton_data]
    obtain ⟨r1, e1, len1, nd1, form1⟩ :=
      flattenEntry_spec v (if p = "" then k0 else p ++ String.singleton c ++ k0) c hc hv.1 hnkne
    obtain ⟨r2, e2, len2, nd2, form2⟩ := flattenPairs_spec rest p c hc hkrest hv.2
    have hd1' : ∀ key ∈ r1.map Prod.fst, ∃ t, ExtL c t ∧
        key.data = (if p = "" then k0.data else p.data ++ [c] ++ k0.data) ++ t := by
      intro key hk
      obtain ⟨t, ht, hdata⟩ := form1 key hk
      refine ⟨t, ht, ?_⟩
      rw [hdata]
      by_cases hp : p = "" <;> simp [hp, String.data_append, singleton_data]
    refine ⟨r1 ++ r2, ?_, ?_, ?_, ?_⟩
    · simp only [flattenPairs]
      rw [e1, e2]
    · simp [len1, len2, leafFields]
    · rw [List.map_append]
      apply List.nodup_append.mpr
      refine ⟨nd1, nd2, ?_⟩
      rw [List.disjoint_left]
      intro key hkey1 hkey2
      obtain ⟨t1, ht1, hdata1⟩ := hd1' key hkey1
      obtain ⟨k', t2, hk'mem, ht2, hdata2⟩ := form2 key hkey2
      have hk'c : c ∉ k'.data := (keysOkB_mem c (rest.map Prod.fst) hkrest k' hk'mem).1
      have h12 := hdata1.symm.trans hdata2
      have hkk : k0 = k' := by
        by_cases hp : p = ""
        · simp only [hp, if_pos] at h12
          exact str_ext (seg_cancel c k0.data k'.data t1 t2 hk0c hk'c ht1 ht2 h12).1
        · simp only [if_neg hp, List.append_assoc, List.singleton_append] at h12
          have h3 := append_cons_cancel p.data c h12
          exact str_ext (seg_cancel c k0.data k'.data t1 t2 hk0c hk'c ht1 ht2 h3).1
      exact hk0nr (hkk ▸ hk'mem)
    · intro key hk
      rw [List.map_append, List.mem_append] at hk
      rcases hk with hk | hk
      · obtain ⟨t, ht, hdata⟩ := hd1' key hk
        exact ⟨k0, t, by simp, ht, hdata⟩
      · obtain ⟨k', t, hk'mem, ht, hdata⟩ := form2 key hk
        exact ⟨k', t, by simp [hk'mem], ht, hdata⟩

theorem flattenItems_spec :
    ∀ (xs : List JSON) (q : String) (i : Nat) (c : Char), c.isDigit = false →
      wellKeyedElems c xs = true →
      ∃ r, flattenItems xs q (String.singleton c) i = .ok r ∧
        r.length = leafElems xs ∧
        (r.map Prod.fst).Nodup ∧
        (∀ key ∈ r.map Prod.fst, ∃ (j : Nat) (t : List Char), i ≤ j ∧ j < i + xs.length ∧
          ExtL c t ∧ key.data = q.data ++ [c] ++ (Nat.repr j).data ++ t)
  | [], q, i, c => by
    intro _ _
    exact ⟨[], rfl, rfl, by simp, by simp⟩
  | x :: rest, q, i, c => by
    intro hc helems
    have hsplit : isObjB x = true ∧ wellKeyed c x = true ∧ wellKeyedElems c rest = true := by
      simpa [wellKeyedElems, Bool.and_eq_true, and_assoc] using helems
    cases x with
    | null => exact absurd hsplit.1 (by simp [isObjB])
    | bool b => exact absurd hsplit.1 (by simp [isObjB])
    | num n => exact absurd hsplit.1 (by simp [isObjB])
    | str s => exact absurd hsplit.1 (by simp [isObjB])
    | arr ys => exact absurd hsplit.1 (by simp [isObjB])
    | obj kvsx =>
      have hx : keysOkB c (kvsx.map Prod.fst) = true ∧ wellKeyedFields c kvsx = true := by
        simpa [wellKeyed, Bool.and_eq_true] using hsplit.2.1
      obtain ⟨r1, e1, len1, nd1, form1⟩ :=
        flattenPairs_spec kvsx (q ++ String.singleton c ++ Nat.repr i) c hc hx.1 hx.2
      obtain ⟨r2, e2, len2, nd2, form2⟩ := flattenItems_spec rest q (i + 1) c hc hsplit.2.2
      have hqidata : (q ++ String.singleton c ++ Nat.repr i).data
          = q.data ++ [c] ++ (Nat.repr i).data := by
        simp [String.data_append, singleton_data]
      have hqine : (q ++ String.singleton c ++ Nat.repr i) ≠ "" := by
        apply str_ne_empty
        rw [hqidata]
        simp
      have hf1 : flatten_json (JSON.obj kvsx) (q ++ String.singleton c ++ Nat.repr i)
          (String.singleton c) = .ok r1 := by
        have h1 : flatten_json (JSON.obj kvsx) (q ++ String.singleton c ++ Nat.repr i)
            (String.singleton c) = Except.ok (pyDict r1) := by
          simp only [flatten_json, e1]; rfl
        rw [h1, pyDict_eq_self r1 nd1]
      have hd1' : ∀ key ∈ r1.map Prod.fst, ∃ (t : List Char), ExtL c t ∧
          key.data = q.data ++ [c] ++ (Nat.repr i).data ++ t := by
        intro key hk
        obtain ⟨k, t, hkmem, ht, hdata⟩ := form1 key hk
        rw [if_neg hqine, hqidata] at hdata
        refine ⟨c :: (k.data ++ t), Or.inr ⟨_, rfl⟩, ?_⟩
        rw [hdata]
        simp
      refine ⟨r1 ++ r2, ?_, ?_, ?_, ?_⟩
      · simp only [flattenItems]
        rw [hf1, e2]
      · simp [len1, len2, leafElems, leafCount]
      · rw [List.map_append]
        apply List.nodup_append.mpr
        refine ⟨nd1, nd2, ?_⟩
        rw [List.disjoint_left]
        intro key hkey1 hkey2
        obtain ⟨t1, ht1, hdata1⟩ := hd1' key hkey1
        obtain ⟨j, t2, hj1, _, ht2, hdata2⟩ := form2 key hkey2
        have h12 := hdata1.symm.trans hdata2
        simp only [List.append_assoc, List.singleton_append] at h12
        have h3 := append_cons_cancel q.data c h12
        have hrep := (seg_cancel c (Nat.repr i).data (Nat.repr j).data t1 t2
          (not_mem_repr c hc i) (not_mem_repr c hc j) ht1 ht2 h3).1
        have : i = j := repr_inj i j (str_ext hrep)
        omega
      · intro key hk
        rw [List.map_append, List.mem_append] at hk
        rcases hk with hk | hk
        · obtain ⟨t, ht, hdata⟩ := hd1' key hk
          exact ⟨i, t, le_refl i, by simp, ht, hdata⟩
        · obtain ⟨j, t, hj1, hj2, ht, hdata⟩ := form2 key hk
          refine ⟨j, t, by omega, by simp; omega, ht, hdata⟩

end

/-- Flattening a well-keyed mapping with a single non-digit separator
character succeeds, and its key count is the leaf count. -/
theorem flatten_json_wellKeyed (c : Char) (kvs : List (String × JSON))
    (hc : c.isDigit = false) (hwk : wellKeyed c (.obj kvs) = true) :
    ∃ r, flatten_json (.obj kvs) "" (String.singleton c) = .ok r ∧
      r.length = leafCount (.obj kvs) := by
  have hsplit : keysOkB c (kvs.map Prod.fst) = true ∧ wellKeyedFields c kvs = true := by
    simpa [wellKeyed, Bool.and_eq_true] using hwk
  obtain ⟨r, hr, hlen, hnd, _⟩ := flattenPairs_spec kvs "" c hc hsplit.1 hsplit.2
  refine ⟨r, ?_, hlen⟩
  have h1 : flatten_json (.obj kvs) "" (String.singleton c) = Except.ok (pyDict r) := by
    simp only [flatten_json, hr]; rfl
  rw [h1, pyDict_eq_self r hnd]

/-! ## Facts about the pivot model -/

theorem char_toNat_inj (a b : Char) (h : a.toNat = b.toNat) : a = b :=
  Char.eq_of_val_eq (UInt32.toNat.inj h)

theorem lexLe_total : ∀ a b : List Char, lexLe a b = true ∨ lexLe b a = true
  | [], _ => Or.inl rfl
  | _ :: _, [] => Or.inr rfl
  | a :: as, b :: bs => by
    by_cases hab : a = b
    · subst hab
      rcases lexLe_total as bs with h | h
      · exact Or.inl (by simp [lexLe, h])
      · exact Or.inr (by simp [lexLe, h])
    · have hba : ¬b = a := fun h => hab h.symm
      have hne : a.toNat ≠ b.toNat := fun h => hab (char_toNat_inj a b h)
      rcases Nat.lt_or_ge a.toNat b.toNat with h | h
      · exact Or.inl (by simp [lexLe, hab]; omega)
      · exact Or.inr (by simp [lexLe, hba]; omega)

theorem lexLe_trans :
    ∀ a b d : List Char, lexLe a b = true → lexLe b d = true → lexLe a d = true
  | [], _, _ => fun _ _ => rfl
  | _ :: _, [], _ => fun h _ => by simp [lexLe] at h
  | _ :: _, _ :: _, [] => fun _ h => by simp [lexLe] at h
  | a :: as, b :: bs, e :: ds => by
    intro h1 h2
    by_cases hab : a = b
    · subst hab
      simp only [lexLe, if_pos rfl] at h1
      by_cases hae : a = e
      · subst hae
        simp only [lexLe, if_pos rfl] at h2 ⊢
        exact lexLe_trans as bs ds h1 h2
      · simp only [lexLe, if_neg hae] at h2 ⊢
        exact h2
    · simp only [lexLe, if_neg hab, decide_eq_true_eq] at h1
      by_cases hbe : b = e
      · subst hbe
        simp only [lexLe, if_neg hab, decide_eq_true_eq]
        exact h1
      · simp only [lexLe, if_neg hbe, decide_eq_true_eq] at h2
        have hae : ¬a = e := by
          intro h; subst h; omega
        simp only [lexLe, if_neg hae, decide_eq_true_eq]
        omega

instance : IsTotal String (fun a b => strLeB a b = true) :=
  ⟨fun a b => lexLe_total a.data b.data⟩

instance : IsTrans String (fun a b => strLeB a b = true) :=
  ⟨fun _ _ _ h1 h2 => lexLe_trans _ _ _ h1 h2⟩

theorem keysNodupB_iff : ∀ l : List (String × String), keysNodupB l = true ↔ l.Nodup := by
  intro l
  induction l with
  | nil => simp [keysNodupB]
  | cons k rest ih => simp [keysNodupB, ih]

theorem mem_firstSeenGo :
    ∀ (l seen : List String) (a : String), a ∈ firstSeenGo seen l ↔ a ∈ l ∧ a ∉ seen := by
  intro l
  induction l with
  | nil => intro seen a; simp [firstSeenGo]
  | cons x xs ih =>
    intro seen a
    by_cases hx : x ∈ seen
    · have hc : seen.contains x = true := by simpa using hx
      simp only [firstSeenGo, hc, if_true]
      rw [ih seen a]
      by_cases ha : a = x
      · subst ha; simp [hx]
      · simp [ha]
    · have hc : seen.contains x = false := by simpa using hx
      simp only [firstSeenGo, hc, Bool.false_eq_true, if_false, List.mem_cons]
      rw [ih (x :: seen) a]
      by_cases ha : a = x
      · subst ha; simp [hx]
      · simp only [List.mem_cons, ha, false_or]

theorem mem_firstSeen (l : List String) (a : String) : a ∈ firstSeen l ↔ a ∈ l := by
  rw [firstSeen, mem_firstSeenGo]
  simp

theorem nodup_firstSeenGo : ∀ (l seen : List String), (firstSeenGo seen l).Nodup := by
  intro l
  induction l with
  | nil => intro seen; simp [firstSeenGo]
  | cons x xs ih =>
    intro seen
    by_cases hx : x ∈ seen
    · have hc : seen.contains x = true := by simpa using hx
      simp only [firstSeenGo, hc, if_true]
      exact ih seen
    · have hc : seen.contains x = false := by simpa using hx
      simp only [firstSeenGo, hc, Bool.false_eq_true, if_false, List.nodup_cons]
      refine ⟨?_, ih (x :: seen)⟩
      rw [mem_firstSeenGo]
      simp

theorem nodup_firstSeen (l : List String) : (firstSeen l).Nodup :=
  nodup_firstSeenGo l []

theorem lookupCell_eq_some_iff (norm : String → String) (rows : List LongRow)
    (hnd : (rows.map (fun r => (norm r.timestamp, r.metric))).Nodup) (d m : String) (v : JSON) :
    lookupCell norm rows d m = some v ↔
      ∃ r ∈ rows, norm r.timestamp = d ∧ r.metric = m ∧ r.value = v := by
  unfold lookupCell
  constructor
  · intro h
    cases hf : rows.find? (fun r => norm r.timestamp == d && r.metric == m) with
    | none => rw [hf] at h; simp at h
    | some r =>
      rw [hf] at h
      simp only [Option.map_some', Option.some.injEq] at h
      have hp := List.find?_some hf
      simp only [Bool.and_eq_true, beq_iff_eq] at hp
      exact ⟨r, List.mem_of_find?_eq_some hf, hp.1, hp.2, h⟩
  · rintro ⟨r, hmem, h1, h2, h3⟩
    cases hf : rows.find? (fun r => norm r.timestamp == d && r.metric == m) with
    | none =>
      have hnone := List.find?_eq_none.mp hf r hmem
      simp [h1, h2] at hnone
    | some r' =>
      have hp := List.find?_some hf
      simp only [Bool.and_eq_true, beq_iff_eq] at hp
      have hmem' := List.mem_of_find?_eq_some hf
      have hrr : r' = r := by
        apply List.inj_on_of_nodup_map hnd hmem' hmem
        simp [hp.1, hp.2, h1, h2]
      subst hrr
      simp [h3]

theorem lookupCell_eq_none_iff (norm : String → String) (rows : List LongRow) (d m : String) :
    lookupCell norm rows d m = none ↔
      ∀ r ∈ rows, ¬(norm r.timestamp = d ∧ r.metric = m) := by
  unfold lookupCell
  cases hf : rows.find? (fun r => norm r.timestamp == d && r.metric == m) with
  | none =>
    simp only [Option.map_none', true_iff]
    intro r hmem hcon
    have hnone := List.find?_eq_none.mp hf r hmem
    simp [hcon.1, hcon.2] at hnone
  | some r =>
    constructor
    · intro h; simp at h
    · intro hall
      have hp := List.find?_some hf
      simp only [Bool.and_eq_true, beq_iff_eq] at hp
      exact absurd ⟨hp.1, hp.2⟩ (hall r (List.mem_of_find?_eq_some hf))

theorem cellOf_map_grid (dates metrics : List String) (g : String → String → Option JSON)
    (d m : String) (hd : d ∈ dates) (hm : m ∈ metrics) :
    cellOf ⟨dates, metrics, dates.map (fun d0 => metrics.map (fun m0 => g d0 m0))⟩ d m
      = some (g d m) := by
  have hdi : dates.indexOf d < dates.length := List.indexOf_lt_length.mpr hd
  have hmi : metrics.indexOf m < metrics.length := List.indexOf_lt_length.mpr hm
  unfold cellOf
  simp only [List.getElem?_map, List.getElem?_eq_getElem hdi, Option.map_some']
  simp only [List.getElem?_map, List.getElem?_eq_getElem hmi, Option.map_some']
  rw [List.getElem_indexOf hdi, List.getElem_indexOf hmi]

/-! ## Facts about the extraction loops -/

theorem lookupKey_cons_self (k : String) (v : JSON) (rest : List (String × JSON)) :
    lookupKey k ((k, v) :: rest) = some v := by
  simp [lookupKey]

theorem lookupKey_cons_ne (k l : String) (v : JSON) (rest : List (String × JSON)) (h : l ≠ k) :
    lookupKey k ((l, v) :: rest) = lookupKey k rest := by
  simp [lookupKey, h]

theorem valuesRows_shape (tsCol : String) (metric_name : JSON) :
    ∀ vs : List (JSON × JSON),
      valuesRows tsCol metric_name
        (vs.map (fun tv => JSON.obj [("end_time", tv.1), ("value", tv.2)]))
      = .ok (vs.map (fun tv => [("metric", metric_name), (tsCol, tv.1), ("value", tv.2)])) := by
  intro vs
  induction vs with
  | nil => rfl
  | cons tv rest ih =>
    obtain ⟨t, w⟩ := tv
    have h1 : pyGetItem "end_time" (JSON.obj [("end_time", t), ("value", w)]) = .ok t := by
      simp [pyGetItem, lookupKey_cons_self]
    have h2 : pyGetItem "value" (JSON.obj [("end_time", t), ("value", w)]) = .ok w := by
      rw [pyGetItem, lookupKey_cons_ne _ _ _ _ (by decide), lookupKey_cons_self]
    simp only [List.map_cons, valuesRows, h1, h2, ih]

theorem metricsRows_shape (tsCol : String) :
    ∀ (ms : List (JSON × List (JSON × JSON))),
      metricsRows tsCol (ms.map (fun mv => JSON.obj
        [("name", mv.1),
         ("values", .arr (mv.2.map (fun tv => JSON.obj [("end_time", tv.1), ("value", tv.2)])))]))
      = .ok ((ms.map (fun mv => mv.2.map (fun tv =>
          [("metric", mv.1), (tsCol, tv.1), ("value", tv.2)]))).flatten) := by
  intro ms
  induction ms with
  | nil => rfl
  | cons mv rest ih =>
    obtain ⟨n, vs⟩ := mv
    have h1 : pyGetItem "name" (JSON.obj [("name", n),
        ("values", .arr (vs.map (fun tv => JSON.obj [("end_time", tv.1), ("value", tv.2)])))])
        = .ok n := by
      simp [pyGetItem, lookupKey_cons_self]
    have h2 : pyGetItem "values" (JSON.obj [("name", n),
        ("values", .arr (vs.map (fun tv => JSON.obj [("end_time", tv.1), ("value", tv.2)])))])
        = .ok (.arr (vs.map (fun tv => JSON.obj [("end_time", tv.1), ("value", tv.2)]))) := by
      rw [pyGetItem, lookupKey_cons_ne _ _ _ _ (by decide), lookupKey_cons_self]
    simp only [List.map_cons, metricsRows, h1, h2, pyIter]
    rw [valuesRows_shape tsCol n vs, ih]
    simp [List.flatten]

/-- The converter on the canonical insights shape: one row per inner value
entry, in order, with columns labelled `metric`, `end_time`, `value`. -/
theorem convert_shape (ms : List (JSON × List (JSON × JSON))) :
    convert_instagram_insights (JSON.obj [("data", .arr (ms.map (fun mv => JSON.obj
        [("name", mv.1),
         ("values", .arr (mv.2.map (fun tv => JSON.obj
           [("end_time", tv.1), ("value", tv.2)])))])))])
      = .ok ((ms.map (fun mv => mv.2.map (fun tv =>
          [("metric", mv.1), ("end_time", tv.1), ("value", tv.2)]))).flatten) := by
  simp only [convert_instagram_insights, pyContains, lookupKey, if_pos rfl, Option.isSome_some,
    if_true, pyGetItem, pyIter]
  exact metricsRows_shape "end_time" ms

theorem saveValuesRows_shape (m n : JSON) (hname : pyGetItem "name" m = .ok n) :
    ∀ vs : List (JSON × JSON),
      saveValuesRows m (vs.map (fun tv => JSON.obj [("end_time", tv.1), ("value", tv.2)]))
      = .ok (vs.map (fun tv => [("metric", n), ("date", tv.1), ("value", tv.2)])) := by
  intro vs
  induction vs with
  | nil => rfl
  | cons tv rest ih =>
    obtain ⟨t, w⟩ := tv
    have h1 : pyGetItem "end_time" (JSON.obj [("end_time", t), ("value", w)]) = .ok t := by
      simp [pyGetItem, lookupKey_cons_self]
    have h2 : pyGetItem "value" (JSON.obj [("end_time", t), ("value", w)]) = .ok w := by
      rw [pyGetItem, lookupKey_cons_ne _ _ _ _ (by decide), lookupKey_cons_self]
    simp only [List.map_cons, saveValuesRows, hname, h1, h2, ih]

theorem saveMetricsRows_shape :
    ∀ (ms : List (JSON × List (JSON × JSON))),
      saveMetricsRows (ms.map (fun mv => JSON.obj
        [("name", mv.1),
         ("values", .arr (mv.2.map (fun tv => JSON.obj [("end_time", tv.1), ("value", tv.2)])))]))
      = .ok ((ms.map (fun mv => mv.2.map (fun tv =>
          [("metric", mv.1), ("date", tv.1), ("value", tv.2)]))).flatten) := by
  intro ms
  induction ms with
  | nil => rfl
  | cons mv rest ih =>
    obtain ⟨n, vs⟩ := mv
    have h1 : pyGetItem "name" (JSON.obj [("name", n),
        ("values", .arr (vs.map (fun tv => JSON.obj [("end_time", tv.1), ("value", tv.2)])))])
        = .ok n := by
      simp [pyGetItem, lookupKey_cons_self]
    have h2 : pyGetItem "values" (JSON.obj [("name", n),
        ("values", .arr (vs.map (fun tv => JSON.obj [("end_time", tv.1), ("value", tv.2)])))])
        = .ok (.arr (vs.map (fun tv => JSON.obj [("end_time", tv.1), ("value", tv.2)]))) := by
      rw [pyGetItem, lookupKey_cons_ne _ _ _ _ (by decide), lookupKey_cons_self]
    simp only [List.map_cons, saveMetricsRows, h2, pyIter]
    rw [saveValuesRows_shape _ n h1 vs, ih]
    simp [List.flatten]

/-- The analytics extraction on the canonical insights shape: one row per
inner value entry, in order, with columns labelled `metric`, `date`,
`value`. -/
theorem save_insights_shape (ms : List (JSON × List (JSON × JSON))) :
    save_insights_data (JSON.obj [("data", .arr (ms.map (fun mv => JSON.obj
        [("name", mv.1),
         ("values", .arr (mv.2.map (fun tv => JSON.obj
           [("end_time", tv.1), ("value", tv.2)])))])))])
      = .ok ((ms.map (fun mv => mv.2.map (fun tv =>
          [("metric", mv.1), ("date", tv.1), ("value", tv.2)]))).flatten) := by
  simp only [save_insights_data, pyGetItem, lookupKey, if_pos rfl, pyIter]
  exact saveMetricsRows_shape ms

theorem firstSeenGo_nil_of_subset :
    ∀ (l seen : List String), (∀ x ∈ l, x ∈ seen) → firstSeenGo seen l = [] := by
  intro l
  induction l with
  | nil => intro seen _; rfl
  | cons x xs ih =>
    intro seen h
    have hc : seen.contains x = true := by simpa using h x (by simp)
    simp only [firstSeenGo, hc, if_true]
    exact ih seen (fun y hy => h y (by simp [hy]))

/-- The DataFrame column list when every row has the same three distinct keys
in the same order. -/
theorem dfColumns_of_shape (a b d : String) (rows : List (List (String × JSON)))
    (hab : a ≠ b) (had : a ≠ d) (hbd : b ≠ d) (hne : rows ≠ [])
    (hshape : ∀ r ∈ rows, r.map Prod.fst = [a, b, d]) :
    dfColumns rows = [a, b, d] := by
  cases rows with
  | nil => exact absurd rfl hne
  | cons r0 rest =>
    have h0 : r0.map Prod.fst = [a, b, d] := hshape r0 (by simp)
    have hsub : ∀ x ∈ (rest.map (fun r => r.map Prod.fst)).flatten, x ∈ [a, b, d] := by
      intro x hx
      rw [List.mem_flatten] at hx
      obtain ⟨l, hl, hxl⟩ := hx
      rw [List.mem_map] at hl
      obtain ⟨r, hr, hrl⟩ := hl
      rw [← hrl] at hxl
      rw [hshape r (by simp [hr])] at hxl
      exact hxl
    unfold dfColumns
    simp only [List.map_cons, List.flatten_cons, h0]
    unfold firstSeen
    have h1 : (([] : List String).contains a) = false := by simp
    have h2 : (([a] : List String).contains b) = false := by simp [hab.symm, eq_comm]
    have h3 : (([b, a] : List String).contains d) = false := by
      simp [had.symm, hbd.symm, eq_comm]
    simp only [List.cons_append, List.nil_append, firstSeenGo, h1, h2, h3,
      Bool.false_eq_true, if_false]
    rw [firstSeenGo_nil_of_subset _ _ ?_]
    intro x hx
    have := hsub x hx
    simp only [List.mem_cons, List.not_mem_nil, or_false] at this
    rcases this with h | h | h <;> simp [h]

/-! ## Top-level control flow around the extraction -/

/-- `convert_facebook_page_data` from json-to-csv-converter.py lines 25-44,
up to the flat record it builds: one `flatten_json` pass with the default
separator. -/
def convert_facebook_page_data (data : JSON) : Except FlattenErr (List (String × JSON)) :=
  flatten_json data "" "_"

/-- `main` of json-to-csv-converter.py lines 97-111: one try block runs the
facebook section and then the instagram section; an exception in the first
is caught at the top level, so the second never runs.  Each component is the
section's output, `none` when the section raised or never ran. -/
def converterMain (fb ig : JSON) :
    Option (List (String × JSON)) × Option (List (List (String × JSON))) :=
  match convert_facebook_page_data fb with
  | .error _ => (none, none)
  | .ok r =>
    match convert_instagram_insights ig with
    | .error _ => (some r, none)
    | .ok rows => (some r, some rows)

/-- The section structure of `save_data`, social-media-analytics.py lines
60-82: the insights section runs behind the guard
`'insights_data' in data and 'data' in data['insights_data']`, its exception
is logged and re-raised, and only when it does not raise does the
platform-specific section run (the `Bool` of the result). -/
def save_data_sections (data : List (String × JSON)) :
    Except PyErr (Option (List (List (String × JSON))) × Bool) :=
  match lookupKey "insights_data" data with
  | none => .ok (none, true)
  | some ins =>
    match pyContains "data" ins with
    | .error e => .error e
    | .ok present =>
      if present then
        match save_insights_data ins with
        | .error e => .error e
        | .ok rows => .ok (some rows, true)
      else .ok (none, true)

/-! ## Guard behaviour and missing keys -/

theorem convert_obj_no_data (kvs : List (String × JSON)) (h : lookupKey "data" kvs = none) :
    convert_instagram_insights (.obj kvs) = .ok [] := by
  simp [convert_instagram_insights, pyContains, h]

theorem convert_arr_no_data (xs : List JSON) (h : JSON.str "data" ∉ xs) :
    convert_instagram_insights (.arr xs) = .ok [] := by
  have hc : xs.contains (JSON.str "data") = false := by simpa using h
  simp only [convert_instagram_insights, pyContains, hc, Bool.false_eq_true, if_false]

theorem convert_str_no_data (s : String) (h : ¬("data".data <:+: s.data)) :
    convert_instagram_insights (.str s) = .ok [] := by
  simp [convert_instagram_insights, pyContains, h]

theorem convert_with_data (d : JSON) (rest : List (String × JSON)) :
    convert_instagram_insights (.obj (("data", d) :: rest))
      = match pyIter d with
        | .error e => .error e
        | .ok ms => metricsRows "end_time" ms := by
  simp only [convert_instagram_insights, pyContains, lookupKey_cons_self, Option.isSome_some,
    if_true, pyGetItem]

theorem metricsRows_missing_name (tsCol : String) (kvs : List (String × JSON))
    (rest : List JSON) (h : lookupKey "name" kvs = none) :
    metricsRows tsCol (.obj kvs :: rest) = .error .keyError := by
  simp [metricsRows, pyGetItem, h]

theorem metricsRows_missing_values (tsCol : String) (kvs : List (String × JSON))
    (rest : List JSON) (n : JSON) (hn : lookupKey "name" kvs = some n)
    (h : lookupKey "values" kvs = none) :
    metricsRows tsCol (.obj kvs :: rest) = .error .keyError := by
  simp [metricsRows, pyGetItem, hn, h]

theorem valuesRows_missing_end_time (tsCol : String) (n : JSON)
    (vkvs : List (String × JSON)) (vrest : List JSON)
    (h : lookupKey "end_time" vkvs = none) :
    valuesRows tsCol n (.obj vkvs :: vrest) = .error .keyError := by
  simp [valuesRows, pyGetItem, h]

theorem valuesRows_missing_value (tsCol : String) (n t : JSON)
    (vkvs : List (String × JSON)) (vrest : List JSON)
    (ht : lookupKey "end_time" vkvs = some t) (h : lookupKey "value" vkvs = none) :
    valuesRows tsCol n (.obj vkvs :: vrest) = .error .keyError := by
  simp [valuesRows, pyGetItem, ht, h]

theorem metricsRows_missing_end_time (tsCol : String) (n : JSON)
    (vkvs : List (String × JSON)) (vrest mrest : List JSON)
    (h : lookupKey "end_time" vkvs = none) :
    metricsRows tsCol
        (.obj [("name", n), ("values", .arr (.obj vkvs :: vrest))] :: mrest)
      = .error .keyError := by
  have h1 : lookupKey "name" [("name", n), ("values", JSON.arr (.obj vkvs :: vrest))]
      = some n := lookupKey_cons_self _ _ _
  have h2 : lookupKey "values" [("name", n), ("values", JSON.arr (.obj vkvs :: vrest))]
      = some (.arr (.obj vkvs :: vrest)) := by
    rw [lookupKey_cons_ne _ _ _ _ (by decide), lookupKey_cons_self]
  simp [metricsRows, pyGetItem, h1, h2, pyIter, valuesRows_missing_end_time tsCol n vkvs vrest h]

theorem metricsRows_missing_value (tsCol : String) (n t : JSON)
    (vkvs : List (String × JSON)) (vrest mrest : List JSON)
    (ht : lookupKey "end_time" vkvs = some t) (h : lookupKey "value" vkvs = none) :
    metricsRows tsCol
        (.obj [("name", n), ("values", .arr (.obj vkvs :: vrest))] :: mrest)
      = .error .keyError := by
  have h1 : lookupKey "name" [("name", n), ("values", JSON.arr (.obj vkvs :: vrest))]
      = some n := lookupKey_cons_self _ _ _
  have h2 : lookupKey "values" [("name", n), ("values", JSON.arr (.obj vkvs :: vrest))]
      = some (.arr (.obj vkvs :: vrest)) := by
    rw [lookupKey_cons_ne _ _ _ _ (by decide), lookupKey_cons_self]
  simp [metricsRows, pyGetItem, h1, h2, pyIter, valuesRows_missing_value tsCol n t vkvs vrest ht h]

theorem save_sections_missing_values (kvs : List (String × JSON)) (rest : List JSON)
    (h : lookupKey "values" kvs = none) :
    save_data_sections [("insights_data", .obj [("data", .arr (.obj kvs :: rest))])]
      = .error .keyError := by
  simp [save_data_sections, lookupKey_cons_self, pyContains, lookupKey, save_insights_data,
    pyGetItem, pyIter, saveMetricsRows, h]

theorem save_sections_missing_name (kvs : List (String × JSON)) (rest vrest : List JSON)
    (v0 : JSON) (hname : lookupKey "name" kvs = none)
    (hvals : lookupKey "values" kvs = some (.arr (v0 :: vrest))) :
    save_data_sections [("insights_data", .obj [("data", .arr (.obj kvs :: rest))])]
      = .error .keyError := by
  simp [save_data_sections, lookupKey_cons_self, pyContains, lookupKey, save_insights_data,
    pyGetItem, pyIter, saveMetricsRows, saveValuesRows, hname, hvals]

theorem save_sections_empty_values (kvs : List (String × JSON))
    (hvals : lookupKey "values" kvs = some (.arr [])) :
    save_data_sections [("insights_data", .obj [("data", .arr [.obj kvs])])]
      = .ok (some [], true) := by
  simp [save_data_sections, lookupKey_cons_self, pyContains, lookupKey, save_insights_data,
    pyGetItem, pyIter, saveMetricsRows, saveValuesRows, hvals]

/-! ## Scalar entries -/

theorem except_map_ok {ε α β : Type} (f : α → β) (a : α) :
    Except.map f (Except.ok a : Except ε α) = .ok (f a) := rfl

theorem pyDict_single (k : String) (v : JSON) : pyDict [(k, v)] = [(k, v)] := rfl

theorem flattenEntry_scalar (v : JSON) (q sep : String) (h : isScalarB v = true) :
    flattenEntry v q sep = .ok [(q, v)] := by
  cases v with
  | null => rfl
  | bool b => rfl
  | num n => rfl
  | str s => rfl
  | arr xs => simp [isScalarB] at h
  | obj kvs => simp [isScalarB] at h

theorem flattenPairs_scalars (sep : String) :
    ∀ kvs : List (String × JSON), (∀ kv ∈ kvs, isScalarB kv.2 = true) →
      flattenPairs kvs "" sep = .ok kvs := by
  intro kvs
  induction kvs with
  | nil => intro _; rfl
  | cons kv rest ih =>
    intro h
    obtain ⟨k, v⟩ := kv
    have hv : isScalarB v = true := h (k, v) (by simp)
    have hrest := ih (fun q hq => h q (by simp [hq]))
    simp [flattenPairs, flattenEntry_scalar v k sep hv, hrest]

theorem keysNodupStrB_iff : ∀ l : List String, keysNodupStrB l = true ↔ l.Nodup := by
  intro l
  induction l with
  | nil => simp [keysNodupStrB]
  | cons k rest ih => simp [keysNodupStrB, ih]

/-! ## The claims -/

/-- C1: for a key whose value is a sequence, a non-empty sequence whose
element 0 is a mapping is expanded, each element `i` flattened under
`key+sep+i` and the results merged — the classification looks at element 0
only — while an empty sequence or one whose element 0 is not a mapping is
stored whole as its string representation under the composite key, never
expanded; in particular
`flatten({"a": [{"x":1},{"x":2}]}, sep="_") = {"a_0_x":1, "a_1_x":2}` and
`flatten({"a": [1,2,3]}) = {"a": "[1, 2, 3]"}`. -/
theorem spec_C1 :
    (flatten_json (.obj [("a", .arr [.obj [("x", .num 1)], .obj [("x", .num 2)]])]) "" "_"
      = .ok [("a_0_x", .num 1), ("a_1_x", .num 2)]) ∧
    (∀ (p sep k : String) (xs : List JSON),
      (xs = [] ∨ ∃ y ys, xs = y :: ys ∧ isObjB y = false) →
      flatten_json (.obj [(k, .arr xs)]) p sep
        = .ok [((if p = "" then k else p ++ sep ++ k), .str (pyRepr (.arr xs)))]) ∧
    (flatten_json (.obj [("a", .arr [.num 1, .num 2, .num 3])]) "" "_"
      = .ok [("a", .str "[1, 2, 3]")]) ∧
    (∀ (sep k : String) (f0 f1 : List (String × JSON)) (r0 r1 : List (String × JSON)),
      flatten_json (.obj f0) (k ++ sep ++ "0") sep = .ok r0 →
      flatten_json (.obj f1) (k ++ sep ++ "1") sep = .ok r1 →
      flatten_json (.obj [(k, .arr [.obj f0, .obj f1])]) "" sep
        = .ok (pyDict (r0 ++ r1))) := by
  refine ⟨by decide, ?_, by decide, ?_⟩
  · intro p sep k xs hx
    rcases hx with hnil | ⟨y, ys, hys, hy⟩
    · subst hnil
      simp [flatten_json, flattenPairs, flattenEntry, except_map_ok, pyDict_single]
    · subst hys
      cases y with
      | obj o => simp [isObjB] at hy
      | null => simp [flatten_json, flattenPairs, flattenEntry, except_map_ok, pyDict_single]
      | bool b => simp [flatten_json, flattenPairs, flattenEntry, except_map_ok, pyDict_single]
      | num n => simp [flatten_json, flattenPairs, flattenEntry, except_map_ok, pyDict_single]
      | str s => simp [flatten_json, flattenPairs, flattenEntry, except_map_ok, pyDict_single]
      | arr zs => simp [flatten_json, flattenPairs, flattenEntry, except_map_ok, pyDict_single]
  · intro sep k f0 f1 r0 r1 h0 h1
    have e0 : flatten_json (.obj f0) (k ++ sep ++ Nat.repr 0) sep = .ok r0 := h0
    have e1 : flatten_json (.obj f1) (k ++ sep ++ Nat.repr 1) sep = .ok r1 := h1
    have hit : flattenItems [JSON.obj f0, JSON.obj f1] k sep 0 = .ok (r0 ++ (r1 ++ [])) := by
      simp only [flattenItems, e0, e1]
    simp only [flatten_json, flattenPairs, flattenEntry, eq_self_iff_true, if_true]
    rw [hit]
    show Except.ok (pyDict (r0 ++ (r1 ++ []) ++ [])) = Except.ok (pyDict (r0 ++ r1))
    rw [List.append_nil, List.append_nil]

/-- Closed instance of the general parts of `spec_C1`: a sequence whose first
element is a boolean is stringified whole, and a two-record sequence is
expanded element by element and merged. -/
theorem spec_C1_witness :
    (flatten_json (.obj [("b", .arr [.bool true, .num 7])]) "" "-"
      = .ok [("b", .str "[True, 7]")]) ∧
    (flatten_json (.obj [("a", .arr [.obj [("x", .num 1)], .obj [("y", .num 2)]])]) "" "_"
      = .ok (pyDict ([("a_0_x", .num 1)] ++ [("a_1_y", .num 2)]))) := by
  constructor
  · have h := spec_C1.2.1 "" "-" "b" [.bool true, .num 7]
      (Or.inr ⟨.bool true, [.num 7], rfl, by decide⟩)
    simpa using h
  · exact spec_C1.2.2.2 "_" "a" [("x", .num 1)] [("y", .num 2)]
      [("a_0_x", .num 1)] [("a_1_y", .num 2)] (by decide) (by decide)

/-- C2: a mapping-valued entry is flattened under the composite key
`prefix+sep+key` (the bare key when the prefix is empty), scalar values —
null included — are stored unchanged under their composite keys, keys are
visited in insertion order, and
`flatten({"a": {"b":1, "c":2}}, sep="_") = {"a_b":1, "a_c":2}`. -/
theorem spec_C2 :
    (∀ (p sep k : String) (kvs : List (String × JSON)),
      flatten_json (.obj [(k, .obj kvs)]) p sep
        = flatten_json (.obj kvs) (if p = "" then k else p ++ sep ++ k) sep) ∧
    (∀ (sep : String) (kvs : List (String × JSON)),
      (∀ kv ∈ kvs, isScalarB kv.2 = true) → keysNodupStrB (kvs.map Prod.fst) = true →
      flatten_json (.obj kvs) "" sep = .ok kvs) ∧
    (∀ (p sep k : String),
      flatten_json (.obj [(k, .null)]) p sep
        = .ok [((if p = "" then k else p ++ sep ++ k), .null)]) ∧
    (flatten_json (.obj [("a", .obj [("b", .num 1), ("c", .num 2)])]) "" "_"
      = .ok [("a_b", .num 1), ("a_c", .num 2)]) := by
  refine ⟨?_, ?_, ?_, by decide⟩
  · intro p sep k kvs
    cases hp : flattenPairs kvs (if p = "" then k else p ++ sep ++ k) sep with
    | error e =>
      simp only [flatten_json, flattenPairs, flattenEntry, hp]
      rfl
    | ok r =>
      simp only [flatten_json, flattenPairs, flattenEntry, hp]
      show Except.ok (pyDict (pyDict r ++ [])) = Except.ok (pyDict r)
      rw [List.append_nil, pyDict_idem]
  · intro sep kvs hsc hnd
    rw [flatten_json, flattenPairs_scalars sep kvs hsc]
    show Except.ok (pyDict kvs) = Except.ok kvs
    rw [pyDict_eq_self kvs ((keysNodupStrB_iff _).mp hnd)]
  · intro p sep k
    simp [flatten_json, flattenPairs, flattenEntry, except_map_ok, pyDict_single]

/-- Closed instance of the general parts of `spec_C2`: a nested mapping under
a non-empty prefix, a two-scalar mapping (a null among the scalars) returned
unchanged and in order, and a null under a composite key. -/
theorem spec_C2_witness :
    (flatten_json (.obj [("a", .obj [("b", .num 1)])]) "pre" "_"
      = flatten_json (.obj [("b", .num 1)]) (if ("pre" : String) = "" then "a"
          else "pre" ++ "_" ++ "a") "_") ∧
    (flatten_json (.obj [("x", .null), ("y", .str "s")]) "" "_"
      = .ok [("x", .null), ("y", .str "s")]) ∧
    (flatten_json (.obj [("k", .null)]) "p" "_"
      = .ok [((if ("p" : String) = "" then "k" else "p" ++ "_" ++ "k"), .null)]) := by
  refine ⟨spec_C2.1 "pre" "_" "a" [("b", .num 1)], ?_, spec_C2.2.2.1 "p" "_" "k"⟩
  exact spec_C2.2.1 "_" [("x", .null), ("y", .str "s")] (by decide) (by decide)

/-- C3 as stated is false: with the default separator `_`, the mapping
`{"a_b": 1, "a": {"b": 2}}` has unique keys at every nesting level and two
scalar leaves, yet flattening produces composite key `a_b` twice, so
`dict(items)` keeps one entry and the flat record has one key, not two. -/
theorem spec_C3_counterexample :
    uniqKeys (JSON.obj [("a_b", .num 1), ("a", .obj [("b", .num 2)])]) = true ∧
    leafCount (JSON.obj [("a_b", .num 1), ("a", .obj [("b", .num 2)])]) = 2 ∧
    flatten_json (JSON.obj [("a_b", .num 1), ("a", .obj [("b", .num 2)])]) "" "_"
      = .ok [("a_b", .num 2)] ∧
    ¬([("a_b", JSON.num 2)] : List (String × JSON)).length
      = leafCount (JSON.obj [("a_b", .num 1), ("a", .obj [("b", .num 2)])]) := by
  refine ⟨by decide, by decide, by decide, by decide⟩

/-- C3 amended: when the separator is one non-digit character and, at every
nesting level the traversal reaches, keys are pairwise distinct, non-empty
and free of that character, and every record-classified sequence consists of
mappings, flattening succeeds and the flat record has exactly one key per
scalar leaf. -/
theorem spec_C3 (c : Char) (kvs : List (String × JSON))
    (hc : c.isDigit = false) (hwk : wellKeyed c (.obj kvs) = true) :
    ∃ r, flatten_json (.obj kvs) "" (String.singleton c) = .ok r ∧
      r.length = leafCount (.obj kvs) :=
  flatten_json_wellKeyed c kvs hc hwk

/-- Closed instance of `spec_C3`: a mapping with a nested mapping and a
two-record sequence, flattened with `_`, keeps one key per leaf. -/
theorem spec_C3_witness :
    ∃ r, flatten_json
        (.obj [("a", .obj [("b", .num 1), ("c", .num 2)]),
               ("d", .arr [.obj [("x", .num 3)], .obj [("x", .num 4)]]),
               ("e", .arr [.num 1, .num 2])])
        "" (String.singleton ('_'))
      = .ok r ∧
      r.length = leafCount
        (.obj [("a", .obj [("b", .num 1), ("c", .num 2)]),
               ("d", .arr [.obj [("x", .num 3)], .obj [("x", .num 4)]]),
               ("e", .arr [.num 1, .num 2])]) :=
  spec_C3 ('_') _ (by decide) (by decide)

/-- C8 as stated is false on the code in both directions: `flatten_json`
asks for `.items()` before looking at the prefix, so a bare scalar raises
the AttributeError even when a non-empty prefix is supplied, and a mapping
argument can still raise it deeper, from a record-classified sequence with a
non-mapping element. -/
theorem spec_C8_counterexample :
    flatten_json (.num 5) "k" "_" = .error .attributeError ∧
    flatten_json (.obj [("a", .arr [.obj [("x", .num 1)], .num 2])]) "" "_"
      = .error .attributeError := by
  refine ⟨by decide, by decide⟩

/-- C8 amended: `flatten_json` fails with its TypeKind error (the
`AttributeError` from `.items()`) exactly when the argument is not a mapping
— whatever the prefix — or when the argument is a mapping whose traversal
reaches a record-classified sequence containing a non-mapping element. -/
theorem spec_C8 (j : JSON) (p sep : String) :
    flatten_json j p sep = .error .attributeError ↔
      (isObjB j = false ∨ noMixed j = false) :=
  flatten_json_error_iff j p sep

/-- C10: a mapping entry holding a sequence whose element 0 is a mapping but
holding a later non-mapping element makes `flatten_json` raise — the
sequence is neither stringified nor the bad element skipped — and, in
general, flattening a mapping succeeds exactly when every record-classified
sequence it reaches consists of mappings throughout. -/
theorem spec_C10 :
    (∀ (p sep k : String) (kvs : List (String × JSON)) (kvs0 : List (String × JSON))
       (y : JSON) (ys : List JSON),
      (k, .arr (.obj kvs0 :: ys)) ∈ kvs → y ∈ ys → isObjB y = false →
      flatten_json (.obj kvs) p sep = .error .attributeError) ∧
    (∀ (kvs : List (String × JSON)) (p sep : String),
      (∃ r, flatten_json (.obj kvs) p sep = .ok r) ↔ noMixed (.obj kvs) = true) := by
  constructor
  · intro p sep k kvs kvs0 y ys hmem hy hyobj
    have hnm : noMixedFields kvs = false := by
      cases hf : noMixedFields kvs with
      | false => rfl
      | true =>
        have harr := noMixed_of_mem_fields kvs hf k (.arr (.obj kvs0 :: ys)) hmem
        have helems : noMixedElems (JSON.obj kvs0 :: ys) = true := by
          simpa [noMixed, isObjB] using harr
        have := isObj_of_mem_elems (JSON.obj kvs0 :: ys) helems y (by simp [hy])
        rw [this] at hyobj
        exact Bool.noConfusion hyobj
    exact (flatten_json_error_iff (.obj kvs) p sep).mpr
      (Or.inr (by simpa [noMixed] using hnm))
  · exact flatten_json_obj_ok_iff

/-- Closed instance of `spec_C10`: a mixed sequence behind one key raises,
and an unmixed mapping flattens. -/
theorem spec_C10_witness :
    flatten_json (.obj [("a", .arr [.obj [("x", .num 1)], .str "oops"])]) "" "_"
      = .error .attributeError ∧
    (∃ r, flatten_json (.obj [("a", .num 1)]) "" "_" = .ok r) := by
  constructor
  · exact spec_C10.1 "" "_" "a" _ [("x", .num 1)] (.str "oops") [.str "oops"]
      (by decide) (by decide) (by decide)
  · exact (spec_C10.2 [("a", .num 1)] "" "_").mpr (by decide)

/-- C4 (pivot modelled from the spec): two rows with the same
(timestamp, metric) pair and different values make `pivot` fail with
CollisionError; neither observation silently overwrites the other. -/
theorem spec_C4 (norm : String → String) (pre mid post : List LongRow) (r1 r2 : LongRow)
    (ht : r1.timestamp = r2.timestamp) (hm : r1.metric = r2.metric)
    (_hv : r1.value ≠ r2.value) :
    pivot norm (pre ++ r1 :: mid ++ r2 :: post) = .error .collisionError := by
  have hkey : (norm r1.timestamp, r1.metric) = (norm r2.timestamp, r2.metric) := by
    simp [ht, hm]
  cases hb : keysNodupB
      ((pre ++ r1 :: mid ++ r2 :: post).map (fun r => (norm r.timestamp, r.metric))) with
  | false =>
    simp only [pivot]
    rw [hb]
    simp
  | true =>
    exfalso
    have hnd := (keysNodupB_iff _).mp hb
    simp only [List.map_append, List.map_cons, List.append_assoc, List.cons_append] at hnd
    have h1 : ((norm r1.timestamp, r1.metric) ::
        (List.map (fun r => (norm r.timestamp, r.metric)) mid ++
          (norm r2.timestamp, r2.metric) ::
            List.map (fun r => (norm r.timestamp, r.metric)) post)).Nodup :=
      hnd.of_append_right
    rw [List.nodup_cons] at h1
    apply h1.1
    rw [hkey]
    exact List.mem_append_right _ (List.mem_cons_self _ _)

/-- Closed instance of `spec_C4`: two observations of `reach` at the same
timestamp with values 1 and 2 collide. -/
theorem spec_C4_witness :
    pivot id ([] ++ ⟨"reach", "2024-01-01", .num 1⟩ :: [] ++ ⟨"reach", "2024-01-01", .num 2⟩ :: [])
      = .error .collisionError :=
  spec_C4 id [] [] [] ⟨"reach", "2024-01-01", .num 1⟩ ⟨"reach", "2024-01-01", .num 2⟩
    rfl rfl (by decide)

/-- C5 (pivot modelled from the spec): on rows whose (normalized timestamp,
metric) pairs are duplicate-free, `pivot` succeeds with one row per distinct
normalized timestamp in ascending order, one column per distinct metric in
first-seen order, each present (timestamp, metric) cell carrying its
observation and every absent pair a null cell. -/
theorem spec_C5 (norm : String → String) (rows : List LongRow)
    (hnd : (rows.map (fun r => (norm r.timestamp, r.metric))).Nodup) :
    ∃ wt, pivot norm rows = .ok wt ∧
      wt.dates.Nodup ∧
      List.Sorted (fun a b => strLeB a b = true) wt.dates ∧
      (∀ d, d ∈ wt.dates ↔ ∃ r ∈ rows, norm r.timestamp = d) ∧
      wt.metrics = firstSeen (rows.map (fun r => r.metric)) ∧
      wt.metrics.Nodup ∧
      (∀ m, m ∈ wt.metrics ↔ ∃ r ∈ rows, r.metric = m) ∧
      wt.cells.length = wt.dates.length ∧
      (∀ row ∈ wt.cells, row.length = wt.metrics.length) ∧
      (∀ d m, d ∈ wt.dates → m ∈ wt.metrics →
        cellOf wt d m = some (lookupCell norm rows d m)) ∧
      (∀ d m v, lookupCell norm rows d m = some v ↔
        ∃ r ∈ rows, norm r.timestamp = d ∧ r.metric = m ∧ r.value = v) ∧
      (∀ d m, lookupCell norm rows d m = none ↔
        ∀ r ∈ rows, ¬(norm r.timestamp = d ∧ r.metric = m)) := by
  have hb : keysNodupB (rows.map (fun r => (norm r.timestamp, r.metric))) = true :=
    (keysNodupB_iff _).mpr hnd
  have hperm := List.perm_insertionSort (fun a b => strLeB a b = true)
    (firstSeen (rows.map (fun r => norm r.timestamp)))
  refine ⟨⟨List.insertionSort (fun a b => strLeB a b = true)
      (firstSeen (rows.map (fun r => norm r.timestamp))),
      firstSeen (rows.map (fun r => r.metric)),
      (List.insertionSort (fun a b => strLeB a b = true)
        (firstSeen (rows.map (fun r => norm r.timestamp)))).map
        (fun d => (firstSeen (rows.map (fun r => r.metric))).map
          (fun m => lookupCell norm rows d m))⟩,
    ?_, ?_, ?_, ?_, rfl, nodup_firstSeen _, ?_, ?_, ?_, ?_, ?_, ?_⟩
  · simp [pivot, hb]
  · exact hperm.nodup_iff.mpr (nodup_firstSeen _)
  · exact List.sorted_insertionSort _ _
  · intro d
    rw [hperm.mem_iff, mem_firstSeen]
    simp [List.mem_map, eq_comm]
  · intro m
    rw [mem_firstSeen]
    simp [List.mem_map, eq_comm]
  · simp
  · intro row hrow
    rw [List.mem_map] at hrow
    obtain ⟨d, _, hd⟩ := hrow
    rw [← hd]
    simp
  · intro d m hd hm
    exact cellOf_map_grid _ _ _ d m hd hm
  · intro d m v
    exact lookupCell_eq_some_iff norm rows hnd d m v
  · intro d m
    exact lookupCell_eq_none_iff norm rows d m

/-- Closed instance of `spec_C5`: three duplicate-free observations over two
timestamps and two metrics pivot successfully. -/
theorem spec_C5_witness :
    ∃ wt, pivot id
        [⟨"reach", "2024-01-02", .num 5⟩, ⟨"views", "2024-01-01", .num 7⟩,
         ⟨"reach", "2024-01-01", .num 6⟩]
      = .ok wt ∧
      wt.dates.Nodup ∧
      List.Sorted (fun a b => strLeB a b = true) wt.dates ∧
      (∀ d, d ∈ wt.dates ↔ ∃ r ∈ ([⟨"reach", "2024-01-02", .num 5⟩,
        ⟨"views", "2024-01-01", .num 7⟩, ⟨"reach", "2024-01-01", .num 6⟩] : List LongRow),
        id r.timestamp = d) ∧
      wt.metrics = firstSeen (([⟨"reach", "2024-01-02", .num 5⟩,
        ⟨"views", "2024-01-01", .num 7⟩,
        ⟨"reach", "2024-01-01", .num 6⟩] : List LongRow).map (fun r => r.metric)) ∧
      wt.metrics.Nodup ∧
      (∀ m, m ∈ wt.metrics ↔ ∃ r ∈ ([⟨"reach", "2024-01-02", .num 5⟩,
        ⟨"views", "2024-01-01", .num 7⟩, ⟨"reach", "2024-01-01", .num 6⟩] : List LongRow),
        r.metric = m) ∧
      wt.cells.length = wt.dates.length ∧
      (∀ row ∈ wt.cells, row.length = wt.metrics.length) ∧
      (∀ d m, d ∈ wt.dates → m ∈ wt.metrics →
        cellOf wt d m = some (lookupCell id ([⟨"reach", "2024-01-02", .num 5⟩,
          ⟨"views", "2024-01-01", .num 7⟩, ⟨"reach", "2024-01-01", .num 6⟩]) d m)) ∧
      (∀ d m v, lookupCell id ([⟨"reach", "2024-01-02", .num 5⟩,
          ⟨"views", "2024-01-01", .num 7⟩, ⟨"reach", "2024-01-01", .num 6⟩]) d m = some v ↔
        ∃ r ∈ ([⟨"reach", "2024-01-02", .num 5⟩, ⟨"views", "2024-01-01", .num 7⟩,
          ⟨"reach", "2024-01-01", .num 6⟩] : List LongRow),
          id r.timestamp = d ∧ r.metric = m ∧ r.value = v) ∧
      (∀ d m, lookupCell id ([⟨"reach", "2024-01-02", .num 5⟩,
          ⟨"views", "2024-01-01", .num 7⟩, ⟨"reach", "2024-01-01", .num 6⟩]) d m = none ↔
        ∀ r ∈ ([⟨"reach", "2024-01-02", .num 5⟩, ⟨"views", "2024-01-01", .num 7⟩,
          ⟨"reach", "2024-01-01", .num 6⟩] : List LongRow),
          ¬(id r.timestamp = d ∧ r.metric = m)) :=
  spec_C5 id
    [⟨"reach", "2024-01-02", .num 5⟩, ⟨"views", "2024-01-01", .num 7⟩,
     ⟨"reach", "2024-01-01", .num 6⟩] (by decide)

/-- C6 as stated is false for json-to-csv-converter.py: its rows label the
timestamp column `end_time`, so the long-format CSV columns are
`metric,end_time,value`, not `metric,date,value`. -/
theorem spec_C6_counterexample :
    convert_instagram_insights
        (.obj [("data", .arr [.obj [("name", .str "reach"),
          ("values", .arr [.obj [("end_time", .str "2024-01-01"), ("value", .num 10)]])]])])
      = .ok [[("metric", .str "reach"), ("end_time", .str "2024-01-01"), ("value", .num 10)]] ∧
    dfColumns [[("metric", .str "reach"), ("end_time", .str "2024-01-01"), ("value", .num 10)]]
      = ["metric", "end_time", "value"] ∧
    (["metric", "end_time", "value"] : List String) ≠ ["metric", "date", "value"] := by
  refine ⟨by decide, by decide, by decide⟩

/-- C6 amended: on input `{"data": [{"name": n, "values": [{"end_time": t,
"value": v}, ...]}, ...]}` both extraction loops emit exactly one long row
per inner value entry carrying metric `n`, timestamp `t` and value `v`, in
order; the analytics scripts label the CSV columns `metric,date,value` while
json-to-csv-converter.py labels them `metric,end_time,value`. -/
theorem spec_C6 :
    (∀ ms : List (JSON × List (JSON × JSON)),
      convert_instagram_insights (JSON.obj [("data", .arr (ms.map (fun mv => JSON.obj
          [("name", mv.1),
           ("values", .arr (mv.2.map (fun tv => JSON.obj
             [("end_time", tv.1), ("value", tv.2)])))])))])
        = .ok ((ms.map (fun mv => mv.2.map (fun tv =>
            [("metric", mv.1), ("end_time", tv.1), ("value", tv.2)]))).flatten)) ∧
    (∀ ms : List (JSON × List (JSON × JSON)),
      save_insights_data (JSON.obj [("data", .arr (ms.map (fun mv => JSON.obj
          [("name", mv.1),
           ("values", .arr (mv.2.map (fun tv => JSON.obj
             [("end_time", tv.1), ("value", tv.2)])))])))])
        = .ok ((ms.map (fun mv => mv.2.map (fun tv =>
            [("metric", mv.1), ("date", tv.1), ("value", tv.2)]))).flatten)) ∧
    (∀ rows : List (List (String × JSON)), rows ≠ [] →
      (∀ r ∈ rows, r.map Prod.fst = ["metric", "date", "value"]) →
      dfColumns rows = ["metric", "date", "value"]) ∧
    (∀ rows : List (List (String × JSON)), rows ≠ [] →
      (∀ r ∈ rows, r.map Prod.fst = ["metric", "end_time", "value"]) →
      dfColumns rows = ["metric", "end_time", "value"]) := by
  refine ⟨convert_shape, save_insights_shape, ?_, ?_⟩
  · intro rows hne hshape
    exact dfColumns_of_shape _ _ _ rows (by decide) (by decide) (by decide) hne hshape
  · intro rows hne hshape
    exact dfColumns_of_shape _ _ _ rows (by decide) (by decide) (by decide) hne hshape

/-- Closed instance of the column-order parts of `spec_C6`. -/
theorem spec_C6_witness :
    dfColumns [[("metric", JSON.str "reach"), ("date", .str "t"), ("value", .num 1)]]
      = ["metric", "date", "value"] ∧
    dfColumns [[("metric", JSON.str "reach"), ("end_time", .str "t"), ("value", .num 1)]]
      = ["metric", "end_time", "value"] :=
  ⟨spec_C6.2.2.1 _ (by decide) (by decide), spec_C6.2.2.2 _ (by decide) (by decide)⟩

/-- C7 as stated is false: a numeric input has no `data` key, yet
`'data' not in data` raises a TypeError instead of returning the empty
sequence. -/
theorem spec_C7_counterexample :
    convert_instagram_insights (.num 5) = .error .typeError ∧
    (Except.error PyErr.typeError
      ≠ (.ok [] : Except PyErr (List (List (String × JSON))))) := by
  refine ⟨by decide, by decide⟩

/-- C7 amended: a mapping without the `data` key, a sequence not containing
the string `"data"`, and a string not containing it as a substring all yield
the empty row sequence without error; on null, boolean and numeric inputs
the membership test itself raises a TypeError. -/
theorem spec_C7 :
    (∀ kvs : List (String × JSON), lookupKey "data" kvs = none →
      convert_instagram_insights (.obj kvs) = .ok []) ∧
    (∀ xs : List JSON, JSON.str "data" ∉ xs →
      convert_instagram_insights (.arr xs) = .ok []) ∧
    (∀ s : String, ¬("data".data <:+: s.data) →
      convert_instagram_insights (.str s) = .ok []) ∧
    (convert_instagram_insights .null = .error .typeError) ∧
    (∀ b, convert_instagram_insights (.bool b) = .error .typeError) ∧
    (∀ n : Int, convert_instagram_insights (.num n) = .error .typeError) := by
  refine ⟨convert_obj_no_data, convert_arr_no_data, convert_str_no_data, rfl, ?_, ?_⟩
  · intro b; rfl
  · intro n; rfl

/-- Closed instance of the guard parts of `spec_C7`. -/
theorem spec_C7_witness :
    convert_instagram_insights (.obj [("x", .num 1)]) = .ok [] ∧
    convert_instagram_insights (.arr [.num 3, .str "other"]) = .ok [] ∧
    convert_instagram_insights (.str "nope") = .ok [] :=
  ⟨spec_C7.1 _ (by decide), spec_C7.2.1 _ (by decide), spec_C7.2.2.1 _ (by decide)⟩

/-- C9 as stated is false: a `data` element without `name` raises a KeyError
in both extraction loops instead of producing nothing for the section, and
in `save_data` the re-raised exception keeps the platform-specific section
from running. -/
theorem spec_C9_counterexample :
    convert_instagram_insights (.obj [("data", .arr [.obj []])]) = .error .keyError ∧
    save_insights_data (.obj [("data", .arr [.obj []])]) = .error .keyError ∧
    save_data_sections [("insights_data", .obj [("data", .arr [.obj []])])]
      = .error .keyError := by
  refine ⟨by decide, by decide, by decide⟩

/-- C9 amended: only the guarded top-level keys are treated as "produce
nothing and continue": a mapping without `data` yields the empty sequence.
In the converter, `metric['name']` is read before the values loop, so a
`data` element missing `name` or `values`, or a value entry missing
`end_time` or `value`, raises a KeyError.  In the analytics scripts,
`metric['name']` is read inside the loop body, so an element missing
`values` raises at the loop header, an element missing `name` raises exactly
when its `values` list is non-empty, and an element with an empty `values`
list contributes nothing and the run continues; when a KeyError is raised,
`save_data` re-raises it, so the remaining sections of the run are
aborted. -/
theorem spec_C9 :
    (∀ kvs : List (String × JSON), lookupKey "data" kvs = none →
      convert_instagram_insights (.obj kvs) = .ok []) ∧
    (∀ (kvs : List (String × JSON)) (rest : List JSON), lookupKey "name" kvs = none →
      convert_instagram_insights (.obj [("data", .arr (.obj kvs :: rest))])
        = .error .keyError) ∧
    (∀ (kvs : List (String × JSON)) (rest : List JSON) (n : JSON),
      lookupKey "name" kvs = some n → lookupKey "values" kvs = none →
      convert_instagram_insights (.obj [("data", .arr (.obj kvs :: rest))])
        = .error .keyError) ∧
    (∀ (n : JSON) (vkvs : List (String × JSON)) (vrest mrest : List JSON),
      lookupKey "end_time" vkvs = none →
      convert_instagram_insights (.obj [("data",
          .arr (.obj [("name", n), ("values", .arr (.obj vkvs :: vrest))] :: mrest))])
        = .error .keyError) ∧
    (∀ (n t : JSON) (vkvs : List (String × JSON)) (vrest mrest : List JSON),
      lookupKey "end_time" vkvs = some t → lookupKey "value" vkvs = none →
      convert_instagram_insights (.obj [("data",
          .arr (.obj [("name", n), ("values", .arr (.obj vkvs :: vrest))] :: mrest))])
        = .error .keyError) ∧
    (∀ (kvs : List (String × JSON)) (rest : List JSON), lookupKey "values" kvs = none →
      save_data_sections [("insights_data", .obj [("data", .arr (.obj kvs :: rest))])]
        = .error .keyError) ∧
    (∀ (kvs : List (String × JSON)) (rest vrest : List JSON) (v0 : JSON),
      lookupKey "name" kvs = none → lookupKey "values" kvs = some (.arr (v0 :: vrest)) →
      save_data_sections [("insights_data", .obj [("data", .arr (.obj kvs :: rest))])]
        = .error .keyError) ∧
    (∀ kvs : List (String × JSON), lookupKey "values" kvs = some (.arr []) →
      save_data_sections [("insights_data", .obj [("data", .arr [.obj kvs])])]
        = .ok (some [], true)) := by
  refine ⟨convert_obj_no_data, ?_, ?_, ?_, ?_, save_sections_missing_values,
    save_sections_missing_name, save_sections_empty_values⟩
  · intro kvs rest h
    rw [convert_with_data]
    simp [pyIter, metricsRows_missing_name "end_time" kvs rest h]
  · intro kvs rest n hn h
    rw [convert_with_data]
    simp [pyIter, metricsRows_missing_values "end_time" kvs rest n hn h]
  · intro n vkvs vrest mrest h
    rw [convert_with_data]
    simp [pyIter, metricsRows_missing_end_time "end_time" n vkvs vrest mrest h]
  · intro n t vkvs vrest mrest ht h
    rw [convert_with_data]
    simp [pyIter, metricsRows_missing_value "end_time" n t vkvs vrest mrest ht h]

/-- Closed instance of `spec_C9`: tiny inputs for each key-absence case,
including the analytics element whose missing `name` goes unnoticed because
its `values` list is empty. -/
theorem spec_C9_witness :
    convert_instagram_insights (.obj [("other", .num 1)]) = .ok [] ∧
    convert_instagram_insights (.obj [("data", .arr [.obj [("values", .arr [])]])])
      = .error .keyError ∧
    convert_instagram_insights (.obj [("data", .arr [.obj [("name", .str "m")]])])
      = .error .keyError ∧
    convert_instagram_insights (.obj [("data", .arr [.obj [("name", .str "m"),
        ("values", .arr [.obj [("value", .num 1)]])]])]) = .error .keyError ∧
    convert_instagram_insights (.obj [("data", .arr [.obj [("name", .str "m"),
        ("values", .arr [.obj [("end_time", .str "t")]])]])]) = .error .keyError ∧
    save_data_sections [("insights_data", .obj [("data", .arr [.obj []])])]
      = .error .keyError ∧
    save_data_sections [("insights_data", .obj [("data",
        .arr [.obj [("values", .arr [.obj []])]])])] = .error .keyError ∧
    save_data_sections [("insights_data", .obj [("data",
        .arr [.obj [("values", .arr [])]])])] = .ok (some [], true) := by
  refine ⟨spec_C9.1 _ (by decide), spec_C9.2.1 _ _ (by decide),
    spec_C9.2.2.1 _ _ (.str "m") (by decide) (by decide),
    spec_C9.2.2.2.1 (.str "m") _ _ _ (by decide),
    spec_C9.2.2.2.2.1 (.str "m") (.str "t") _ _ _ (by decide) (by decide),
    spec_C9.2.2.2.2.2.1 _ _ (by decide),
    spec_C9.2.2.2.2.2.2.1 [("values", .arr [.obj []])] [] [] (.obj []) (by decide) (by decide),
    spec_C9.2.2.2.2.2.2.2 _ (by decide)⟩
